import Mathlib

/-!
Shallow embedding of `src/src/cuckoo.rs` (crate `cuckoo-rs`): a cuckoo hash
table with two bucket groups, two hash functions, a bounded eviction walk and
a resize-and-rehash fallback.

Modelling conventions:
* A `DefaultHasher` carried in the table and used via clone-hash-finish is a
  pure function of the element for a fixed seed, so each hasher is embedded as
  a field `hash1 hash2 : T → Nat` (the `finish() as usize` value); slot
  indices are `hash % group length`, exactly as in `h1`/`h2` in the source.
* `Vec<Option<T>>` becomes `List (Option T)`; indexing `buckets[g][i]` becomes
  `List.getD i none` (all indices produced by `h1`/`h2` are in bounds).
* The `f64` field `load_factor` is written at construction and never read (and
  the struct literal inside `resize_and_rehash` omits it); it is dropped from
  the embedding.
* The recursion `insert → resize_and_rehash → insert` has no structural bound
  in the source (the spec notes possible non-termination for adversarial
  hashes), so those functions take a fuel argument and return `none` when the
  fuel runs out; every result `some _` corresponds to an actual terminating
  run of the Rust code.
* The eviction `for _ in 0..MAX_LOOP` loop is `evictionLoop`, recursing on the
  remaining iteration count; the `.expect("must not be None")` in the swap
  step is the explicit result `EvictResult.panicked`.
-/

/-- The table state: two bucket groups, element count, per-group capacity and
the two hash functions (see `struct CuckooHashTable` in the source). -/
structure CuckooHashTable (T : Type) where
  bucket0 : List (Option T)
  bucket1 : List (Option T)
  size : Nat
  capacity : Nat
  hash1 : T → Nat
  hash2 : T → Nat

/-- `const MAX_LOOP: u8 = 100`. -/
def MAX_LOOP : Nat := 100

/-- `CuckooHashTable::new`: empty table of capacity 16 per group, size 0, with
the two (freshly seeded, hence arbitrary) hash functions. -/
def CuckooHashTable.new {T : Type} (f1 f2 : T → Nat) : CuckooHashTable T :=
  { bucket0 := List.replicate 16 none
    bucket1 := List.replicate 16 none
    size := 0
    capacity := 16
    hash1 := f1
    hash2 := f2 }

/-- `h1`: hash under `hash1` reduced modulo the length of group 0. -/
def CuckooHashTable.h1 {T : Type} (t : CuckooHashTable T) (x : T) : Nat :=
  t.hash1 x % t.bucket0.length

/-- `h2`: hash under `hash2` reduced modulo the length of group 1. -/
def CuckooHashTable.h2 {T : Type} (t : CuckooHashTable T) (x : T) : Nat :=
  t.hash2 x % t.bucket1.length

/-- `contains`: the group-0 candidate slot or the group-1 candidate slot holds
an element equal to `x`. -/
def CuckooHashTable.contains {T : Type} [DecidableEq T]
    (t : CuckooHashTable T) (x : T) : Bool :=
  decide (t.bucket0.getD (t.h1 x) none = some x) ||
    decide (t.bucket1.getD (t.h2 x) none = some x)

/-- `remove`: clear the group-0 candidate slot if it holds `x`, else the
group-1 candidate slot if it holds `x`, decrementing `size`; the returned
`Bool` is the Rust return value. -/
def CuckooHashTable.remove {T : Type} [DecidableEq T]
    (t : CuckooHashTable T) (x : T) : CuckooHashTable T × Bool :=
  let b1 := t.h1 x
  if t.bucket0.getD b1 none = some x then
    ({ t with bucket0 := t.bucket0.set b1 none, size := t.size - 1 }, true)
  else
    let b2 := t.h2 x
    if t.bucket1.getD b2 none = some x then
      ({ t with bucket1 := t.bucket1.set b2 none, size := t.size - 1 }, true)
    else
      (t, false)

/-- `insert_into_slot`: store `elem` in slot `bucket` of the given group and
increment `size`. -/
def CuckooHashTable.insert_into_slot {T : Type} (t : CuckooHashTable T)
    (bucket_group : Nat) (bucket : Nat) (elem : T) : CuckooHashTable T :=
  if bucket_group = 0 then
    { t with bucket0 := t.bucket0.set bucket (some elem), size := t.size + 1 }
  else
    { t with bucket1 := t.bucket1.set bucket (some elem), size := t.size + 1 }

/-- Outcome of the eviction walk (`for _ in 0..MAX_LOOP` inside `insert`):
either the displaced element was placed (the `return true` exits inside the
loop), or the iteration bound ran out with `current` still displaced, or the
`.expect("must not be None")` fired. -/
inductive EvictResult (T : Type) where
  | placed (t : CuckooHashTable T)
  | exhausted (t : CuckooHashTable T) (current : T)
  | panicked

/-- One-for-one embedding of the eviction walk in `insert`, recursing on the
remaining number of loop iterations. Each iteration: if the group-0 candidate
slot of `current` is empty, place it there; otherwise swap `current` with the
occupant (`Option::replace`, whose previous value feeds the `expect`), then
place the evicted occupant in its group-1 candidate slot if empty, else loop
with it as the new `current`. -/
def evictionLoop {T : Type} (t : CuckooHashTable T) (current : T) :
    Nat → EvictResult T
  | 0 => .exhausted t current
  | n + 1 =>
    let b1 := t.h1 current
    if (t.bucket0.getD b1 none).isNone then
      .placed (t.insert_into_slot 0 b1 current)
    else
      let old := t.bucket0.getD b1 none
      let t2 := { t with bucket0 := t.bucket0.set b1 (some current) }
      match old with
      | none => .panicked
      | some evicted =>
        let b2 := t2.h2 evicted
        if (t2.bucket1.getD b2 none).isNone then
          .placed (t2.insert_into_slot 1 b2 evicted)
        else
          evictionLoop t2 evicted n

mutual

/-- `insert`: return false on a duplicate; else try the two candidate slots;
else run the eviction walk for `MAX_LOOP` iterations; on exhaustion resize and
rehash, retry the final displaced element against the resized table, and
return true. `none` means the fuel ran out (the unbounded
resize-retry recursion of the source did not finish within `fuel`);
a panic of the `expect` is also mapped to `none` (it is proved unreachable
below). -/
def CuckooHashTable.insert {T : Type} [DecidableEq T] :
    Nat → CuckooHashTable T → T → Option (CuckooHashTable T × Bool)
  | 0, _, _ => none
  | fuel + 1, t, x =>
    if t.contains x then
      some (t, false)
    else
      let b0 := t.h1 x
      if (t.bucket0.getD b0 none).isNone then
        some (t.insert_into_slot 0 b0 x, true)
      else
        let b1 := t.h2 x
        if (t.bucket1.getD b1 none).isNone then
          some (t.insert_into_slot 1 b1 x, true)
        else
          match evictionLoop t x MAX_LOOP with
          | .placed t2 => some (t2, true)
          | .panicked => none
          | .exhausted t2 current =>
            match CuckooHashTable.resize_and_rehash fuel t2 with
            | none => none
            | some t3 =>
              match CuckooHashTable.insert fuel t3 current with
              | none => none
              | some (t4, _) => some (t4, true)

/-- `resize_and_rehash`: build an empty table of double the capacity with the
same hash functions and size 0, then reinsert every live element drained from
the old groups, group 0 before group 1, in slot-index order. -/
def CuckooHashTable.resize_and_rehash {T : Type} [DecidableEq T] :
    Nat → CuckooHashTable T → Option (CuckooHashTable T)
  | 0, _ => none
  | fuel + 1, t =>
    CuckooHashTable.insertList fuel
      { bucket0 := List.replicate (t.capacity * 2) none
        bucket1 := List.replicate (t.capacity * 2) none
        size := 0
        capacity := t.capacity * 2
        hash1 := t.hash1
        hash2 := t.hash2 }
      (t.bucket0.filterMap id ++ t.bucket1.filterMap id)

/-- The reinsertion loop of `resize_and_rehash`: insert the drained elements
one after the other, discarding the returned booleans. -/
def CuckooHashTable.insertList {T : Type} [DecidableEq T] :
    Nat → CuckooHashTable T → List T → Option (CuckooHashTable T)
  | 0, _, _ => none
  | _ + 1, t, [] => some t
  | fuel + 1, t, x :: rest =>
    match CuckooHashTable.insert fuel t x with
    | none => none
    | some (t2, _) => CuckooHashTable.insertList fuel t2 rest

end

/-- The value `insert` computes once both fast paths have failed (the
element is absent and both candidate slots are occupied): run the eviction
walk with budget `MAX_LOOP`; on success return true; on exhaustion resize
once and retry the final displaced element. This names the tail of the
`insert` branch so that theorems can state it without repeating the match. -/
def insertSlowPath {T : Type} [DecidableEq T] (fuel : Nat)
    (t : CuckooHashTable T) (x : T) : Option (CuckooHashTable T × Bool) :=
  match evictionLoop t x MAX_LOOP with
  | .placed t2 => some (t2, true)
  | .panicked => none
  | .exhausted t2 current =>
    match CuckooHashTable.resize_and_rehash fuel t2 with
    | none => none
    | some t3 =>
      match CuckooHashTable.insert fuel t3 current with
      | none => none
      | some (t4, _) => some (t4, true)

/-- Number of loop iterations the eviction walk actually executes: same
branching as `evictionLoop`, counting one per entered iteration. -/
def evictionSteps {T : Type} (t : CuckooHashTable T) (current : T) :
    Nat → Nat
  | 0 => 0
  | n + 1 =>
    let b1 := t.h1 current
    if (t.bucket0.getD b1 none).isNone then
      1
    else
      let old := t.bucket0.getD b1 none
      let t2 := { t with bucket0 := t.bucket0.set b1 (some current) }
      match old with
      | none => 1
      | some evicted =>
        let b2 := t2.h2 evicted
        if (t2.bucket1.getD b2 none).isNone then
          1
        else
          1 + evictionSteps t2 evicted n

/-- The live elements of the table, in group-then-slot-index order (the drain
order of `resize_and_rehash`). -/
def CuckooHashTable.liveElems {T : Type} (t : CuckooHashTable T) : List T :=
  t.bucket0.filterMap id ++ t.bucket1.filterMap id

/-- `y` is stored somewhere in the table. -/
def CuckooHashTable.memTable {T : Type} (t : CuckooHashTable T) (y : T) : Prop :=
  some y ∈ t.bucket0 ∨ some y ∈ t.bucket1

/-- The data-model invariants of the spec: both groups have length equal to
`capacity`, the capacity is `16 * 2 ^ k`, every stored element sits exactly at
its candidate slot of its group, no element is stored in both groups at once,
and `size` counts the occupied slots. -/
structure CuckooInv {T : Type} (t : CuckooHashTable T) : Prop where
  len0 : t.bucket0.length = t.capacity
  len1 : t.bucket1.length = t.capacity
  cap_pow : ∃ k, t.capacity = 16 * 2 ^ k
  placed0 : ∀ i x, t.bucket0[i]? = some (some x) → i = t.h1 x
  placed1 : ∀ i x, t.bucket1[i]? = some (some x) → i = t.h2 x
  nodup : ∀ x, ¬(t.bucket0[t.h1 x]? = some (some x) ∧
      t.bucket1[t.h2 x]? = some (some x))
  size_eq : t.size = t.liveElems.length

/-- One client operation of the public interface. -/
inductive Op (T : Type) where
  | insertOp (x : T)
  | removeOp (x : T)
  | containsOp (x : T)

/-- Run a sequence of operations against the table, collecting the returned
booleans; `none` when some insert runs out of fuel. -/
def runTable {T : Type} [DecidableEq T] (fuel : Nat) :
    CuckooHashTable T → List (Op T) → Option (CuckooHashTable T × List Bool)
  | t, [] => some (t, [])
  | t, Op.insertOp x :: rest =>
    match t.insert fuel x with
    | none => none
    | some (t2, b) =>
      match runTable fuel t2 rest with
      | none => none
      | some (tf, bs) => some (tf, b :: bs)
  | t, Op.removeOp x :: rest =>
    match runTable fuel (t.remove x).1 rest with
    | none => none
    | some (tf, bs) => some (tf, (t.remove x).2 :: bs)
  | t, Op.containsOp x :: rest =>
    match runTable fuel t rest with
    | none => none
    | some (tf, bs) => some (tf, t.contains x :: bs)

/-- Run the same sequence of operations against a reference finite set:
insert is set-add returning "newly added", remove is set-discard returning
"was present", contains is membership. -/
def runSet {T : Type} [DecidableEq T] :
    Finset T → List (Op T) → Finset T × List Bool
  | s, [] => (s, [])
  | s, Op.insertOp x :: rest =>
    let r := runSet (insert x s) rest
    (r.1, decide (x ∉ s) :: r.2)
  | s, Op.removeOp x :: rest =>
    let r := runSet (s.erase x) rest
    (r.1, decide (x ∈ s) :: r.2)
  | s, Op.containsOp x :: rest =>
    let r := runSet s rest
    (r.1, decide (x ∈ s) :: r.2)

/-- Table states reachable from a freshly constructed table by the public
operations (a successful `insert`, a `remove`) and by the internal
`resize_and_rehash`. -/
inductive Reachable {T : Type} [DecidableEq T] (f1 f2 : T → Nat) :
    CuckooHashTable T → Prop where
  | base : Reachable f1 f2 (CuckooHashTable.new f1 f2)
  | ins {t t2 : CuckooHashTable T} {fuel : Nat} {x : T} {b : Bool} :
      Reachable f1 f2 t → t.insert fuel x = some (t2, b) → Reachable f1 f2 t2
  | rem {t : CuckooHashTable T} {x : T} :
      Reachable f1 f2 t → Reachable f1 f2 (t.remove x).1
  | rsz {t t2 : CuckooHashTable T} {fuel : Nat} :
      Reachable f1 f2 t → CuckooHashTable.resize_and_rehash fuel t = some t2 →
      Reachable f1 f2 t2

/-- Identity hash function on `Nat`, used to build concrete witness tables. -/
def idHash : Nat → Nat := fun n => n

/-- Concrete table: element 5 stored in its group-0 candidate slot (the state
after inserting 5 into a fresh table with `idHash` hashers). -/
def wTable1 : CuckooHashTable Nat :=
  ⟨(List.replicate 16 none).set 5 (some 5),
    List.replicate 16 (none : Option Nat), 1, 16, idHash, idHash⟩

/-- Resized version of `wTable1` (capacity 32). -/
def wTable1R : CuckooHashTable Nat :=
  ⟨(List.replicate 32 none).set 5 (some 5),
    List.replicate 32 (none : Option Nat), 1, 32, idHash, idHash⟩

/-- Concrete table whose two candidate slots for the element 48 are both
occupied (by 16 and 32). -/
def wTable2 : CuckooHashTable Nat :=
  ⟨(List.replicate 16 none).set 0 (some 16),
    (List.replicate 16 none).set 0 (some 32), 2, 16, idHash, idHash⟩

/-- Concrete table with an occupied group-1 slot. -/
def wTable3 : CuckooHashTable Nat :=
  ⟨List.replicate 16 none, (List.replicate 16 none).set 3 (some 7), 1, 16,
    idHash, idHash⟩

/-- A concrete six-operation client sequence. -/
def wOps : List (Op Nat) := [Op.insertOp 1, Op.insertOp 1, Op.containsOp 1,
  Op.removeOp 1, Op.removeOp 1, Op.containsOp 2]

/-- The final table of running `wOps` against a fresh `idHash` table. -/
def wTableRun : CuckooHashTable Nat :=
  ⟨((List.replicate 16 none).set 1 (some 1)).set 1 none,
    List.replicate 16 (none : Option Nat), 0, 16, idHash, idHash⟩

/-! ## Basic list-level lemmas -/

section ListLemmas

variable {T : Type}

lemma getD_none_eq_some_iff (l : List (Option T)) (i : Nat) (x : T) :
    l.getD i none = some x ↔ l[i]? = some (some x) := by
  rw [List.getD_eq_getElem?_getD]
  cases h : l[i]? with
  | none => simp
  | some v => simp

lemma getD_none_isNone_iff {l : List (Option T)} {i : Nat}
    (hlt : i < l.length) : (l.getD i none).isNone = true ↔ l[i]? = some none := by
  rw [List.getD_eq_getElem?_getD, List.getElem?_eq_getElem hlt]
  cases h : l[i] <;> simp [h]

lemma getD_none_isNone_false_iff {l : List (Option T)} {i : Nat}
    (hlt : i < l.length) :
    (l.getD i none).isNone = false ↔ ∃ x, l[i]? = some (some x) := by
  rw [List.getD_eq_getElem?_getD, List.getElem?_eq_getElem hlt]
  cases h : l[i] <;> simp [h]

lemma mem_of_getElem?_eq {l : List T} {i : Nat} {a : T}
    (h : l[i]? = some a) : a ∈ l :=
  List.mem_iff_getElem?.mpr ⟨i, h⟩

lemma filterMap_id_replicate_none (n : Nat) :
    (List.replicate n (none : Option T)).filterMap id = [] := by
  induction n with
  | zero => rfl
  | succ n ih => simp [List.replicate_succ, List.filterMap_cons, ih]

lemma not_mem_replicate_none (n : Nat) (y : T) :
    ¬ some y ∈ List.replicate n (none : Option T) := by
  intro h
  exact Option.noConfusion (List.eq_of_mem_replicate h)

lemma filterMap_id_length_set_none {l : List (Option T)} {i : Nat} {x : T}
    (h : l[i]? = some (some x)) :
    ((l.set i none).filterMap id).length + 1 = (l.filterMap id).length := by
  induction l generalizing i with
  | nil => simp at h
  | cons a l ih =>
    cases i with
    | zero =>
      simp only [List.getElem?_cons_zero, Option.some.injEq] at h
      subst h
      simp [List.filterMap_cons]
    | succ i =>
      simp only [List.getElem?_cons_succ] at h
      cases a with
      | none => simpa [List.filterMap_cons] using ih h
      | some v =>
        have := ih h
        simp only [List.set_cons_succ, List.filterMap_cons, id]
        simp only [List.length_cons]
        omega

lemma filterMap_id_length_set_some_of_none {l : List (Option T)} {i : Nat}
    (h : l[i]? = some none) (e : T) :
    ((l.set i (some e)).filterMap id).length = (l.filterMap id).length + 1 := by
  induction l generalizing i with
  | nil => simp at h
  | cons a l ih =>
    cases i with
    | zero =>
      simp only [List.getElem?_cons_zero, Option.some.injEq] at h
      subst h
      simp [List.filterMap_cons]
    | succ i =>
      simp only [List.getElem?_cons_succ] at h
      cases a with
      | none => simpa [List.filterMap_cons] using ih h
      | some v =>
        have := ih h
        simp only [List.set_cons_succ, List.filterMap_cons, id]
        simp only [List.length_cons]
        omega

lemma filterMap_id_length_set_some_of_some {l : List (Option T)} {i : Nat}
    {x : T} (h : l[i]? = some (some x)) (e : T) :
    ((l.set i (some e)).filterMap id).length = (l.filterMap id).length := by
  induction l generalizing i with
  | nil => simp at h
  | cons a l ih =>
    cases i with
    | zero =>
      simp only [List.getElem?_cons_zero, Option.some.injEq] at h
      subst h
      simp [List.filterMap_cons]
    | succ i =>
      simp only [List.getElem?_cons_succ] at h
      cases a with
      | none => simpa [List.filterMap_cons] using ih h
      | some v =>
        have := ih h
        simp only [List.set_cons_succ, List.filterMap_cons, id]
        simp only [List.length_cons]
        omega

lemma filterMap_id_length_eq_countP (l : List (Option T)) :
    (l.filterMap id).length = l.countP (fun s => s.isSome) := by
  induction l with
  | nil => rfl
  | cons a l ih =>
    cases a <;> simp [List.filterMap_cons, List.countP_cons, ih]

lemma nodup_filterMap_id_of_inj {l : List (Option T)}
    (h : ∀ (i j : Nat) (x : T),
      l[i]? = some (some x) → l[j]? = some (some x) → i = j) :
    (l.filterMap id).Nodup := by
  induction l with
  | nil => simp
  | cons a l ih =>
    have htail : ∀ (i j : Nat) (x : T),
        l[i]? = some (some x) → l[j]? = some (some x) → i = j := by
      intro i j x hi hj
      have hi' : (a :: l)[i + 1]? = some (some x) := by
        rw [List.getElem?_cons_succ]; exact hi
      have hj' : (a :: l)[j + 1]? = some (some x) := by
        rw [List.getElem?_cons_succ]; exact hj
      have := h (i + 1) (j + 1) x hi' hj'
      omega
    cases a with
    | none => simpa [List.filterMap_cons] using ih htail
    | some v =>
      simp only [List.filterMap_cons, id]
      refine List.nodup_cons.mpr ⟨?_, ih htail⟩
      intro hv
      obtain ⟨a, ha, hav⟩ := List.mem_filterMap.mp hv
      obtain ⟨j, hj⟩ := List.mem_iff_getElem?.mp ha
      simp only [id] at hav
      subst hav
      have := h 0 (j + 1) v (by simp) (by simpa using hj)
      omega

end ListLemmas

/-! ## Table-level helper lemmas -/

section TableLemmas

set_option linter.unusedSectionVars false

variable {T : Type} [DecidableEq T]

lemma CuckooInv.len0_pos {t : CuckooHashTable T} (hInv : CuckooInv t) :
    0 < t.bucket0.length := by
  obtain ⟨k, hk⟩ := hInv.cap_pow
  have h2 : 0 < 16 * 2 ^ k := by positivity
  have hl := hInv.len0
  omega

lemma CuckooInv.len1_pos {t : CuckooHashTable T} (hInv : CuckooInv t) :
    0 < t.bucket1.length := by
  obtain ⟨k, hk⟩ := hInv.cap_pow
  have h2 : 0 < 16 * 2 ^ k := by positivity
  have hl := hInv.len1
  omega

lemma h1_lt {t : CuckooHashTable T} (hpos : 0 < t.bucket0.length) (x : T) :
    t.h1 x < t.bucket0.length :=
  Nat.mod_lt _ hpos

lemma h2_lt {t : CuckooHashTable T} (hpos : 0 < t.bucket1.length) (x : T) :
    t.h2 x < t.bucket1.length :=
  Nat.mod_lt _ hpos
  

lemma mem_bucket0_iff {t : CuckooHashTable T} (hInv : CuckooInv t) (y : T) :
    some y ∈ t.bucket0 ↔ t.bucket0[t.h1 y]? = some (some y) := by
  constructor
  · intro h
    obtain ⟨i, hi⟩ := List.mem_iff_getElem?.mp h
    have := hInv.placed0 i y hi
    subst this
    exact hi
  · intro h
    exact mem_of_getElem?_eq h

lemma mem_bucket1_iff {t : CuckooHashTable T} (hInv : CuckooInv t) (y : T) :
    some y ∈ t.bucket1 ↔ t.bucket1[t.h2 y]? = some (some y) := by
  constructor
  · intro h
    obtain ⟨i, hi⟩ := List.mem_iff_getElem?.mp h
    have := hInv.placed1 i y hi
    subst this
    exact hi
  · intro h
    exact mem_of_getElem?_eq h

lemma memTable_iff_slots {t : CuckooHashTable T} (hInv : CuckooInv t) (y : T) :
    t.memTable y ↔
      (t.bucket0[t.h1 y]? = some (some y) ∨ t.bucket1[t.h2 y]? = some (some y)) := by
  unfold CuckooHashTable.memTable
  rw [mem_bucket0_iff hInv, mem_bucket1_iff hInv]

lemma contains_iff_memTable {t : CuckooHashTable T} (hInv : CuckooInv t) (y : T) :
    t.contains y = true ↔ t.memTable y := by
  unfold CuckooHashTable.contains
  rw [memTable_iff_slots hInv]
  simp only [Bool.or_eq_true, decide_eq_true_eq, getD_none_eq_some_iff]

lemma contains_false_iff {t : CuckooHashTable T} (hInv : CuckooInv t) (y : T) :
    t.contains y = false ↔ ¬ t.memTable y := by
  rw [← contains_iff_memTable hInv]
  cases t.contains y <;> simp

lemma mem_liveElems_iff (t : CuckooHashTable T) (y : T) :
    y ∈ t.liveElems ↔ t.memTable y := by
  unfold CuckooHashTable.liveElems CuckooHashTable.memTable
  simp only [List.mem_append, List.mem_filterMap, id]
  constructor
  · rintro (⟨a, ha, rfl⟩ | ⟨a, ha, rfl⟩)
    · exact Or.inl ha
    · exact Or.inr ha
  · rintro (h | h)
    · exact Or.inl ⟨some y, h, rfl⟩
    · exact Or.inr ⟨some y, h, rfl⟩

lemma liveElems_nodup {t : CuckooHashTable T} (hInv : CuckooInv t) :
    t.liveElems.Nodup := by
  unfold CuckooHashTable.liveElems
  refine List.Nodup.append ?_ ?_ ?_
  · refine nodup_filterMap_id_of_inj ?_
    intro i j x hi hj
    rw [hInv.placed0 i x hi, hInv.placed0 j x hj]
  · refine nodup_filterMap_id_of_inj ?_
    intro i j x hi hj
    rw [hInv.placed1 i x hi, hInv.placed1 j x hj]
  · intro y hy0 hy1
    simp only [List.mem_filterMap, id] at hy0 hy1
    obtain ⟨a, ha, rfl⟩ := hy0
    obtain ⟨b, hb, hba⟩ := hy1
    subst hba
    exact hInv.nodup y ⟨(mem_bucket0_iff hInv y).mp ha, (mem_bucket1_iff hInv y).mp hb⟩

lemma size_eq_size_of_memTable_iff {t t2 : CuckooHashTable T}
    (hInv : CuckooInv t) (hInv2 : CuckooInv t2)
    (hmem : ∀ y, t.memTable y ↔ t2.memTable y) : t.size = t2.size := by
  rw [hInv.size_eq, hInv2.size_eq]
  rw [← List.toFinset_card_of_nodup (liveElems_nodup hInv),
    ← List.toFinset_card_of_nodup (liveElems_nodup hInv2)]
  congr 1
  apply Finset.ext
  intro y
  rw [List.mem_toFinset, List.mem_toFinset, mem_liveElems_iff, mem_liveElems_iff]
  exact hmem y

/-- The invariant of a freshly allocated empty table of capacity `c`, with `c`
a positive power-of-two multiple of 16. -/
lemma inv_empty (c : Nat) (hc : ∃ k, c = 16 * 2 ^ k) (f1 f2 : T → Nat) :
    CuckooInv (⟨List.replicate c none, List.replicate c none, 0, c, f1, f2⟩ :
      CuckooHashTable T) := by
  constructor
  · simp
  · simp
  · exact hc
  · intro i x h
    rw [List.getElem?_replicate] at h
    split at h <;> simp_all
  · intro i x h
    rw [List.getElem?_replicate] at h
    split at h <;> simp_all
  · intro x h
    obtain ⟨h0, _⟩ := h
    rw [List.getElem?_replicate] at h0
    split at h0 <;> simp_all
  · show 0 = _
    unfold CuckooHashTable.liveElems
    simp [filterMap_id_replicate_none]

lemma inv_new (f1 f2 : T → Nat) : CuckooInv (CuckooHashTable.new f1 f2) :=
  inv_empty 16 ⟨0, rfl⟩ f1 f2

lemma memTable_new (f1 f2 : T → Nat) (y : T) :
    ¬ (CuckooHashTable.new f1 f2).memTable y := by
  rintro (h | h) <;> exact not_mem_replicate_none 16 y h

lemma insert_into_slot0_spec {t : CuckooHashTable T} {x : T}
    (hInv : CuckooInv t) (hx : ¬ t.memTable x)
    (hempty : t.bucket0[t.h1 x]? = some none) :
    CuckooInv (t.insert_into_slot 0 (t.h1 x) x) ∧
    (∀ y, (t.insert_into_slot 0 (t.h1 x) x).memTable y ↔ (t.memTable y ∨ y = x)) ∧
    (t.insert_into_slot 0 (t.h1 x) x).size = t.size + 1 ∧
    (t.insert_into_slot 0 (t.h1 x) x).capacity = t.capacity ∧
    (t.insert_into_slot 0 (t.h1 x) x).hash1 = t.hash1 ∧
    (t.insert_into_slot 0 (t.h1 x) x).hash2 = t.hash2 := by
  have hb : t.h1 x < t.bucket0.length := h1_lt hInv.len0_pos x
  have ht2 : t.insert_into_slot 0 (t.h1 x) x =
      { t with bucket0 := t.bucket0.set (t.h1 x) (some x), size := t.size + 1 } := by
    simp [CuckooHashTable.insert_into_slot]
  rw [ht2]
  have hh1 : ∀ y,
      ({ t with
          bucket0 := t.bucket0.set (t.h1 x) (some x),
          size := t.size + 1 } : CuckooHashTable T).h1 y = t.h1 y := by
    intro y; simp [CuckooHashTable.h1]
  have hh2 : ∀ y,
      ({ t with
          bucket0 := t.bucket0.set (t.h1 x) (some x),
          size := t.size + 1 } : CuckooHashTable T).h2 y = t.h2 y := by
    intro y; simp [CuckooHashTable.h2]
  have hget : ∀ j, (t.bucket0.set (t.h1 x) (some x))[j]? =
      if t.h1 x = j then some (some x) else t.bucket0[j]? := by
    intro j
    simp [List.getElem?_set, hb]
  have hmem0 : ∀ y, some y ∈ t.bucket0.set (t.h1 x) (some x) ↔
      (y = x ∨ some y ∈ t.bucket0) := by
    intro y
    constructor
    · intro h
      obtain ⟨j, hj⟩ := List.mem_iff_getElem?.mp h
      rw [hget j] at hj
      by_cases hbj : t.h1 x = j
      · rw [if_pos hbj] at hj
        left
        exact (Option.some_inj.mp (Option.some_inj.mp hj)).symm
      · rw [if_neg hbj] at hj
        right
        exact mem_of_getElem?_eq hj
    · rintro (rfl | h)
      · refine mem_of_getElem?_eq (i := t.h1 y) ?_
        rw [hget (t.h1 y)]
        simp
      · obtain ⟨j, hj⟩ := List.mem_iff_getElem?.mp h
        have hbj : t.h1 x ≠ j := by
          intro he
          rw [← he, hempty] at hj
          exact Option.noConfusion (Option.some_inj.mp hj)
        refine mem_of_getElem?_eq (i := j) ?_
        rw [hget j, if_neg hbj]
        exact hj
  refine ⟨?_, ?_, rfl, rfl, rfl, rfl⟩
  · constructor
    · simpa using hInv.len0
    · simpa using hInv.len1
    · simpa using hInv.cap_pow
    · intro i y hy
      simp only at hy
      rw [hget i] at hy
      rw [hh1 y]
      by_cases hbi : t.h1 x = i
      · rw [if_pos hbi] at hy
        have : x = y := Option.some_inj.mp (Option.some_inj.mp hy)
        subst this
        exact hbi.symm
      · rw [if_neg hbi] at hy
        exact hInv.placed0 i y hy
    · intro i y hy
      simp only at hy
      rw [hh2 y]
      exact hInv.placed1 i y hy
    · intro y hy
      obtain ⟨hy0, hy1⟩ := hy
      rw [hh1 y] at hy0
      rw [hh2 y] at hy1
      simp only at hy0 hy1
      rw [hget (t.h1 y)] at hy0
      by_cases hbe : t.h1 x = t.h1 y
      · rw [if_pos hbe] at hy0
        have : x = y := Option.some_inj.mp (Option.some_inj.mp hy0)
        subst this
        exact hx (Or.inr (mem_of_getElem?_eq hy1))
      · rw [if_neg hbe] at hy0
        exact hInv.nodup y ⟨hy0, hy1⟩
    · show t.size + 1 = _
      unfold CuckooHashTable.liveElems
      simp only [List.length_append]
      rw [filterMap_id_length_set_some_of_none hempty x]
      have := hInv.size_eq
      unfold CuckooHashTable.liveElems at this
      simp only [List.length_append] at this
      omega
  · intro y
    show (some y ∈ _ ∨ some y ∈ _) ↔ _
    rw [hmem0 y]
    unfold CuckooHashTable.memTable
    simp only
    tauto

lemma insert_into_slot1_spec {t : CuckooHashTable T} {x : T}
    (hInv : CuckooInv t) (hx : ¬ t.memTable x)
    (hempty : t.bucket1[t.h2 x]? = some none) :
    CuckooInv (t.insert_into_slot 1 (t.h2 x) x) ∧
    (∀ y, (t.insert_into_slot 1 (t.h2 x) x).memTable y ↔ (t.memTable y ∨ y = x)) ∧
    (t.insert_into_slot 1 (t.h2 x) x).size = t.size + 1 ∧
    (t.insert_into_slot 1 (t.h2 x) x).capacity = t.capacity ∧
    (t.insert_into_slot 1 (t.h2 x) x).hash1 = t.hash1 ∧
    (t.insert_into_slot 1 (t.h2 x) x).hash2 = t.hash2 := by
  have hb : t.h2 x < t.bucket1.length := h2_lt hInv.len1_pos x
  have ht2 : t.insert_into_slot 1 (t.h2 x) x =
      { t with bucket1 := t.bucket1.set (t.h2 x) (some x), size := t.size + 1 } := by
    simp [CuckooHashTable.insert_into_slot]
  rw [ht2]
  have hh1 : ∀ y,
      ({ t with
          bucket1 := t.bucket1.set (t.h2 x) (some x),
          size := t.size + 1 } : CuckooHashTable T).h1 y = t.h1 y := by
    intro y; simp [CuckooHashTable.h1]
  have hh2 : ∀ y,
      ({ t with
          bucket1 := t.bucket1.set (t.h2 x) (some x),
          size := t.size + 1 } : CuckooHashTable T).h2 y = t.h2 y := by
    intro y; simp [CuckooHashTable.h2]
  have hget : ∀ j, (t.bucket1.set (t.h2 x) (some x))[j]? =
      if t.h2 x = j then some (some x) else t.bucket1[j]? := by
    intro j
    simp [List.getElem?_set, hb]
  have hmem1 : ∀ y, some y ∈ t.bucket1.set (t.h2 x) (some x) ↔
      (y = x ∨ some y ∈ t.bucket1) := by
    intro y
    constructor
    · intro h
      obtain ⟨j, hj⟩ := List.mem_iff_getElem?.mp h
      rw [hget j] at hj
      by_cases hbj : t.h2 x = j
      · rw [if_pos hbj] at hj
        left
        exact (Option.some_inj.mp (Option.some_inj.mp hj)).symm
      · rw [if_neg hbj] at hj
        right
        exact mem_of_getElem?_eq hj
    · rintro (rfl | h)
      · refine mem_of_getElem?_eq (i := t.h2 y) ?_
        rw [hget (t.h2 y)]
        simp
      · obtain ⟨j, hj⟩ := List.mem_iff_getElem?.mp h
        have hbj : t.h2 x ≠ j := by
          intro he
          rw [← he, hempty] at hj
          exact Option.noConfusion (Option.some_inj.mp hj)
        refine mem_of_getElem?_eq (i := j) ?_
        rw [hget j, if_neg hbj]
        exact hj
  refine ⟨?_, ?_, rfl, rfl, rfl, rfl⟩
  · constructor
    · simpa using hInv.len0
    · simpa using hInv.len1
    · simpa using hInv.cap_pow
    · intro i y hy
      simp only at hy
      rw [hh1 y]
      exact hInv.placed0 i y hy
    · intro i y hy
      simp only at hy
      rw [hget i] at hy
      rw [hh2 y]
      by_cases hbi : t.h2 x = i
      · rw [if_pos hbi] at hy
        have : x = y := Option.some_inj.mp (Option.some_inj.mp hy)
        subst this
        exact hbi.symm
      · rw [if_neg hbi] at hy
        exact hInv.placed1 i y hy
    · intro y hy
      obtain ⟨hy0, hy1⟩ := hy
      rw [hh1 y] at hy0
      rw [hh2 y] at hy1
      simp only at hy0 hy1
      rw [hget (t.h2 y)] at hy1
      by_cases hbe : t.h2 x = t.h2 y
      · rw [if_pos hbe] at hy1
        have : x = y := Option.some_inj.mp (Option.some_inj.mp hy1)
        subst this
        exact hx (Or.inl (mem_of_getElem?_eq hy0))
      · rw [if_neg hbe] at hy1
        exact hInv.nodup y ⟨hy0, hy1⟩
    · show t.size + 1 = _
      unfold CuckooHashTable.liveElems
      simp only [List.length_append]
      rw [filterMap_id_length_set_some_of_none hempty x]
      have := hInv.size_eq
      unfold CuckooHashTable.liveElems at this
      simp only [List.length_append] at this
      omega
  · intro y
    show (some y ∈ _ ∨ some y ∈ _) ↔ _
    rw [hmem1 y]
    unfold CuckooHashTable.memTable
    simp only
    tauto

lemma swap_step_spec {t t2 : CuckooHashTable T} {cur evicted : T}
    (hInv : CuckooInv t) (hcur : ¬ t.memTable cur)
    (hocc : t.bucket0[t.h1 cur]? = some (some evicted))
    (ht2 : t2 = { t with bucket0 := t.bucket0.set (t.h1 cur) (some cur) }) :
    CuckooInv t2 ∧ ¬ t2.memTable evicted ∧
    (∀ y, (t2.memTable y ∨ y = evicted) ↔ (t.memTable y ∨ y = cur)) ∧
    t2.size = t.size ∧ t2.capacity = t.capacity ∧
    t2.hash1 = t.hash1 ∧ t2.hash2 = t.hash2 ∧ t2.bucket1 = t.bucket1 := by
  subst ht2
  have hb : t.h1 cur < t.bucket0.length := h1_lt hInv.len0_pos cur
  have hb1e : t.h1 cur = t.h1 evicted := hInv.placed0 (t.h1 cur) evicted hocc
  have hmemE : t.memTable evicted := Or.inl (mem_of_getElem?_eq hocc)
  have hne : evicted ≠ cur := by
    intro he
    subst he
    exact hcur hmemE
  have hh1 : ∀ y,
      ({ t with
          bucket0 := t.bucket0.set (t.h1 cur) (some cur) } :
        CuckooHashTable T).h1 y = t.h1 y := by
    intro y; simp [CuckooHashTable.h1]
  have hh2 : ∀ y,
      ({ t with
          bucket0 := t.bucket0.set (t.h1 cur) (some cur) } :
        CuckooHashTable T).h2 y = t.h2 y := by
    intro y; simp [CuckooHashTable.h2]
  have hget : ∀ j, (t.bucket0.set (t.h1 cur) (some cur))[j]? =
      if t.h1 cur = j then some (some cur) else t.bucket0[j]? := by
    intro j
    simp [List.getElem?_set, hb]
  have hE1 : ¬ t.bucket1[t.h2 evicted]? = some (some evicted) := by
    intro hcontra
    exact hInv.nodup evicted ⟨hb1e ▸ hocc, hcontra⟩
  have hmem2 : ∀ y,
      ({ t with
          bucket0 := t.bucket0.set (t.h1 cur) (some cur) } :
        CuckooHashTable T).memTable y ↔
        (y = cur ∨ (t.memTable y ∧ y ≠ evicted)) := by
    intro y
    constructor
    · rintro (h | h)
      · obtain ⟨j, hj⟩ := List.mem_iff_getElem?.mp h
        rw [hget j] at hj
        by_cases hcj : t.h1 cur = j
        · rw [if_pos hcj] at hj
          left
          exact (Option.some_inj.mp (Option.some_inj.mp hj)).symm
        · rw [if_neg hcj] at hj
          right
          refine ⟨Or.inl (mem_of_getElem?_eq hj), ?_⟩
          intro hye
          subst hye
          exact hcj (hb1e.trans (hInv.placed0 j y hj).symm)
      · right
        refine ⟨Or.inr h, ?_⟩
        intro hye
        subst hye
        obtain ⟨j, hj⟩ := List.mem_iff_getElem?.mp h
        rw [hInv.placed1 j y hj] at hj
        exact hE1 hj
    · rintro (rfl | ⟨hmem, hye⟩)
      · left
        refine mem_of_getElem?_eq (i := t.h1 y) ?_
        rw [hget (t.h1 y)]
        simp
      · rcases hmem with h | h
        · obtain ⟨j, hj⟩ := List.mem_iff_getElem?.mp h
          have hcj : t.h1 cur ≠ j := by
            intro he
            rw [← he, hocc] at hj
            exact hye (Option.some_inj.mp (Option.some_inj.mp hj)).symm
          left
          refine mem_of_getElem?_eq (i := j) ?_
          rw [hget j, if_neg hcj]
          exact hj
        · exact Or.inr h
  refine ⟨?_, ?_, ?_, rfl, rfl, rfl, rfl, rfl⟩
  · constructor
    · simpa using hInv.len0
    · simpa using hInv.len1
    · simpa using hInv.cap_pow
    · intro i y hy
      simp only at hy
      rw [hget i] at hy
      rw [hh1 y]
      by_cases hci : t.h1 cur = i
      · rw [if_pos hci] at hy
        have : cur = y := Option.some_inj.mp (Option.some_inj.mp hy)
        subst this
        exact hci.symm
      · rw [if_neg hci] at hy
        exact hInv.placed0 i y hy
    · intro i y hy
      simp only at hy
      rw [hh2 y]
      exact hInv.placed1 i y hy
    · intro y hy
      obtain ⟨hy0, hy1⟩ := hy
      rw [hh1 y] at hy0
      rw [hh2 y] at hy1
      simp only at hy0 hy1
      rw [hget (t.h1 y)] at hy0
      by_cases hce : t.h1 cur = t.h1 y
      · rw [if_pos hce] at hy0
        have : cur = y := Option.some_inj.mp (Option.some_inj.mp hy0)
        subst this
        exact hcur (Or.inr (mem_of_getElem?_eq hy1))
      · rw [if_neg hce] at hy0
        exact hInv.nodup y ⟨hy0, hy1⟩
    · show t.size = _
      unfold CuckooHashTable.liveElems
      simp only [List.length_append]
      rw [filterMap_id_length_set_some_of_some hocc cur]
      have := hInv.size_eq
      unfold CuckooHashTable.liveElems at this
      simp only [List.length_append] at this
      omega
  · intro hcontra
    rw [hmem2 evicted] at hcontra
    rcases hcontra with h | ⟨_, h⟩
    · exact hne h
    · exact h rfl
  · intro y
    rw [hmem2 y]
    by_cases hye : y = evicted
    · subst hye
      simp [hmemE]
    · by_cases hyc : y = cur
      · subst hyc
        simp
      · constructor
        · rintro ((h | ⟨h, _⟩) | h)
          · exact absurd h hyc
          · exact Or.inl h
          · exact absurd h hye
        · rintro (h | h)
          · exact Or.inl (Or.inr ⟨h, hye⟩)
          · exact absurd h hyc

lemma evictionLoop_succ_empty {t : CuckooHashTable T} {cur : T} {n : Nat}
    (h : (t.bucket0.getD (t.h1 cur) none).isNone = true) :
    evictionLoop t cur (n + 1) = .placed (t.insert_into_slot 0 (t.h1 cur) cur) := by
  rw [evictionLoop]
  split
  · rfl
  · rename_i hc
    exact absurd h hc

lemma evictionLoop_succ_swap_place {t : CuckooHashTable T}
    {cur evicted : T} {n : Nat}
    (h : t.bucket0.getD (t.h1 cur) none = some evicted)
    (h2 : ((({ t with bucket0 := t.bucket0.set (t.h1 cur) (some cur) } :
        CuckooHashTable T)).bucket1.getD
      (({ t with bucket0 := t.bucket0.set (t.h1 cur) (some cur) } :
        CuckooHashTable T).h2 evicted) none).isNone = true) :
    evictionLoop t cur (n + 1) =
      .placed (({ t with bucket0 := t.bucket0.set (t.h1 cur) (some cur) } :
        CuckooHashTable T).insert_into_slot 1
        (({ t with bucket0 := t.bucket0.set (t.h1 cur) (some cur) } :
          CuckooHashTable T).h2 evicted) evicted) := by
  rw [evictionLoop]
  split
  · rename_i hc
    rw [h] at hc
    simp at hc
  · rw [h]
    dsimp only
    split
    · rfl
    · rename_i hc2
      exact absurd h2 hc2

lemma evictionLoop_succ_swap_loop {t : CuckooHashTable T}
    {cur evicted : T} {n : Nat}
    (h : t.bucket0.getD (t.h1 cur) none = some evicted)
    (h2 : ((({ t with bucket0 := t.bucket0.set (t.h1 cur) (some cur) } :
        CuckooHashTable T)).bucket1.getD
      (({ t with bucket0 := t.bucket0.set (t.h1 cur) (some cur) } :
        CuckooHashTable T).h2 evicted) none).isNone = false) :
    evictionLoop t cur (n + 1) =
      evictionLoop ({ t with bucket0 := t.bucket0.set (t.h1 cur) (some cur) } :
        CuckooHashTable T) evicted n := by
  rw [evictionLoop]
  split
  · rename_i hc
    rw [h] at hc
    simp at hc
  · rw [h]
    dsimp only
    split
    · rename_i hc2
      rw [h2] at hc2
      exact Bool.noConfusion hc2
    · rfl

lemma evictionLoop_spec (n : Nat) :
    ∀ (t : CuckooHashTable T) (cur : T), CuckooInv t → ¬ t.memTable cur →
    (∀ tp, evictionLoop t cur n = .placed tp →
        CuckooInv tp ∧ (∀ y, tp.memTable y ↔ (t.memTable y ∨ y = cur)) ∧
        tp.capacity = t.capacity ∧ tp.hash1 = t.hash1 ∧ tp.hash2 = t.hash2 ∧
        tp.size = t.size + 1) ∧
    (∀ te ce, evictionLoop t cur n = .exhausted te ce →
        CuckooInv te ∧ ¬ te.memTable ce ∧
        (∀ y, (te.memTable y ∨ y = ce) ↔ (t.memTable y ∨ y = cur)) ∧
        te.capacity = t.capacity ∧ te.hash1 = t.hash1 ∧ te.hash2 = t.hash2 ∧
        te.size = t.size) := by
  induction n with
  | zero =>
    intro t cur hInv hcur
    constructor
    · intro tp hp
      rw [evictionLoop] at hp
      exact EvictResult.noConfusion hp
    · intro te ce he
      rw [evictionLoop] at he
      injection he with h1 h2
      subst h1
      subst h2
      exact ⟨hInv, hcur, fun y => Iff.rfl, rfl, rfl, rfl, rfl⟩
  | succ n ih =>
    intro t cur hInv hcur
    have hb : t.h1 cur < t.bucket0.length := h1_lt hInv.len0_pos cur
    by_cases hempty : (t.bucket0.getD (t.h1 cur) none).isNone = true
    · have hstep := evictionLoop_succ_empty (n := n) hempty
      have hempty' : t.bucket0[t.h1 cur]? = some none :=
        (getD_none_isNone_iff hb).mp hempty
      obtain ⟨hInv2, hmem2, hsz2, hcap2, hh12, hh22⟩ :=
        insert_into_slot0_spec hInv hcur hempty'
      constructor
      · intro tp hp
        rw [hstep] at hp
        injection hp with hp
        subst hp
        exact ⟨hInv2, hmem2, hcap2, hh12, hh22, hsz2⟩
      · intro te ce he
        rw [hstep] at he
        exact EvictResult.noConfusion he
    · have hne : (t.bucket0.getD (t.h1 cur) none).isNone = false := by
        cases hval : (t.bucket0.getD (t.h1 cur) none).isNone
        · rfl
        · exact absurd hval hempty
      obtain ⟨evicted, hocc⟩ := (getD_none_isNone_false_iff hb).mp hne
      have hold : t.bucket0.getD (t.h1 cur) none = some evicted :=
        (getD_none_eq_some_iff _ _ _).mpr hocc
      set t2 : CuckooHashTable T :=
        { t with bucket0 := t.bucket0.set (t.h1 cur) (some cur) } with ht2
      obtain ⟨hInvS, hmemES, hiffS, hszS, hcapS, hh1S, hh2S, hbkS⟩ :=
        swap_step_spec hInv hcur hocc ht2
      by_cases hstep2 : (t2.bucket1.getD (t2.h2 evicted) none).isNone = true
      · have hstep := evictionLoop_succ_swap_place (n := n) hold hstep2
        have hempty1' : t2.bucket1[t2.h2 evicted]? = some none :=
          (getD_none_isNone_iff (h2_lt hInvS.len1_pos evicted)).mp hstep2
        obtain ⟨hInv3, hmem3, hsz3, hcap3, hh13, hh23⟩ :=
          insert_into_slot1_spec hInvS hmemES hempty1'
        constructor
        · intro tp hp
          rw [hstep] at hp
          injection hp with hp
          subst hp
          refine ⟨hInv3, ?_, ?_, ?_, ?_, ?_⟩
          · intro y
            exact (hmem3 y).trans (hiffS y)
          · exact hcap3.trans hcapS
          · exact hh13.trans hh1S
          · exact hh23.trans hh2S
          · rw [hsz3, hszS]
        · intro te ce he
          rw [hstep] at he
          exact EvictResult.noConfusion he
      · have hne2 : (t2.bucket1.getD (t2.h2 evicted) none).isNone = false := by
          cases hval : (t2.bucket1.getD (t2.h2 evicted) none).isNone
          · rfl
          · exact absurd hval hstep2
        have hstep := evictionLoop_succ_swap_loop (n := n) hold hne2
        obtain ⟨ihp, ihe⟩ := ih t2 evicted hInvS hmemES
        constructor
        · intro tp hp
          rw [hstep] at hp
          obtain ⟨hI, hm, hc, hf1, hf2, hs⟩ := ihp tp hp
          refine ⟨hI, ?_, hc.trans hcapS, hf1.trans hh1S, hf2.trans hh2S, ?_⟩
          · intro y
            exact (hm y).trans (hiffS y)
          · rw [hs, hszS]
        · intro te ce he
          rw [hstep] at he
          obtain ⟨hI, hnm, hm, hc, hf1, hf2, hs⟩ := ihe te ce he
          refine ⟨hI, hnm, ?_, hc.trans hcapS, hf1.trans hh1S, hf2.trans hh2S, ?_⟩
          · intro y
            exact (hm y).trans (hiffS y)
          · rw [hs, hszS]

lemma remove_spec {t : CuckooHashTable T} (hInv : CuckooInv t) (x : T) :
    CuckooInv (t.remove x).1 ∧
    ((t.remove x).2 = true ↔ t.memTable x) ∧
    (∀ y, (t.remove x).1.memTable y ↔ (t.memTable y ∧ y ≠ x)) ∧
    (t.remove x).1.capacity = t.capacity ∧
    (t.remove x).1.bucket0.length = t.bucket0.length ∧
    (t.remove x).1.bucket1.length = t.bucket1.length ∧
    (t.remove x).1.hash1 = t.hash1 ∧ (t.remove x).1.hash2 = t.hash2 ∧
    ((t.remove x).2 = false → (t.remove x).1 = t) ∧
    ((t.remove x).2 = true → (t.remove x).1.size + 1 = t.size) := by
  have hb0 : t.h1 x < t.bucket0.length := h1_lt hInv.len0_pos x
  have hb1 : t.h2 x < t.bucket1.length := h2_lt hInv.len1_pos x
  by_cases h0 : t.bucket0.getD (t.h1 x) none = some x
  · -- found in the group-0 candidate slot
    have hx0 : t.bucket0[t.h1 x]? = some (some x) :=
      (getD_none_eq_some_iff _ _ _).mp h0
    have hmemx : t.memTable x := Or.inl (mem_of_getElem?_eq hx0)
    have hr : t.remove x =
        ({ t with bucket0 := t.bucket0.set (t.h1 x) none, size := t.size - 1 },
          true) := by
      simp only [CuckooHashTable.remove]
      rw [if_pos h0]
    rw [hr]
    have hget : ∀ j, (t.bucket0.set (t.h1 x) none)[j]? =
        if t.h1 x = j then some none else t.bucket0[j]? := by
      intro j
      simp [List.getElem?_set, hb0]
    have hsz : 0 < t.liveElems.length :=
      List.length_pos.mpr (List.ne_nil_of_mem ((mem_liveElems_iff t x).mpr hmemx))
    have hlen : ((t.bucket0.set (t.h1 x) none).filterMap id).length + 1 =
        (t.bucket0.filterMap id).length := filterMap_id_length_set_none hx0
    have hszeq := hInv.size_eq
    have hmem : ∀ y,
        ({ t with bucket0 := t.bucket0.set (t.h1 x) none, size := t.size - 1 } :
          CuckooHashTable T).memTable y ↔ (t.memTable y ∧ y ≠ x) := by
      intro y
      constructor
      · rintro (h | h)
        · obtain ⟨j, hj⟩ := List.mem_iff_getElem?.mp h
          rw [hget j] at hj
          by_cases hxj : t.h1 x = j
          · rw [if_pos hxj] at hj
            exact Option.noConfusion (Option.some_inj.mp hj)
          · rw [if_neg hxj] at hj
            refine ⟨Or.inl (mem_of_getElem?_eq hj), ?_⟩
            intro hyx
            subst hyx
            exact hxj (hInv.placed0 j y hj).symm
        · refine ⟨Or.inr h, ?_⟩
          intro hyx
          subst hyx
          obtain ⟨j, hj⟩ := List.mem_iff_getElem?.mp h
          rw [hInv.placed1 j y hj] at hj
          exact hInv.nodup y ⟨hx0, hj⟩
      · rintro ⟨hmemy, hyx⟩
        rcases hmemy with h | h
        · obtain ⟨j, hj⟩ := List.mem_iff_getElem?.mp h
          have hxj : t.h1 x ≠ j := by
            intro he
            rw [← he, hx0] at hj
            exact hyx (Option.some_inj.mp (Option.some_inj.mp hj)).symm
          left
          refine mem_of_getElem?_eq (i := j) ?_
          rw [hget j, if_neg hxj]
          exact hj
        · exact Or.inr h
    refine ⟨?_, ?_, hmem, rfl, by simp, rfl, rfl, rfl, by simp, ?_⟩
    · constructor
      · simpa using hInv.len0
      · simpa using hInv.len1
      · simpa using hInv.cap_pow
      · intro i y hy
        simp only at hy
        rw [hget i] at hy
        have hxi : t.h1 x ≠ i := by
          intro he
          rw [if_pos he] at hy
          exact Option.noConfusion (Option.some_inj.mp hy)
        rw [if_neg hxi] at hy
        have := hInv.placed0 i y hy
        subst this
        simp [CuckooHashTable.h1]
      · intro i y hy
        simp only at hy
        have := hInv.placed1 i y hy
        subst this
        simp [CuckooHashTable.h2]
      · intro y hy
        obtain ⟨hy0, hy1⟩ := hy
        have hh1R : ({ t with
            bucket0 := t.bucket0.set (t.h1 x) none,
            size := t.size - 1 } : CuckooHashTable T).h1 y = t.h1 y := by
          simp [CuckooHashTable.h1]
        have hh2R : ({ t with
            bucket0 := t.bucket0.set (t.h1 x) none,
            size := t.size - 1 } : CuckooHashTable T).h2 y = t.h2 y := by
          simp [CuckooHashTable.h2]
        rw [hh1R] at hy0
        rw [hh2R] at hy1
        simp only at hy0 hy1
        rw [hget (t.h1 y)] at hy0
        by_cases hxy : t.h1 x = t.h1 y
        · rw [if_pos hxy] at hy0
          exact Option.noConfusion (Option.some_inj.mp hy0)
        · rw [if_neg hxy] at hy0
          exact hInv.nodup y ⟨hy0, hy1⟩
      · show t.size - 1 = _
        unfold CuckooHashTable.liveElems
        simp only [List.length_append]
        unfold CuckooHashTable.liveElems at hszeq hsz
        simp only [List.length_append] at hszeq hsz
        omega
    · constructor
      · intro _
        exact hmemx
      · intro _
        rfl
    · intro _
      show t.size - 1 + 1 = t.size
      unfold CuckooHashTable.liveElems at hszeq hsz
      simp only [List.length_append] at hszeq hsz
      omega
  · by_cases h1s : t.bucket1.getD (t.h2 x) none = some x
    · -- found in the group-1 candidate slot
      have hx1 : t.bucket1[t.h2 x]? = some (some x) :=
        (getD_none_eq_some_iff _ _ _).mp h1s
      have hnot0 : ¬ t.bucket0[t.h1 x]? = some (some x) := by
        intro hc
        exact h0 ((getD_none_eq_some_iff _ _ _).mpr hc)
      have hmemx : t.memTable x := Or.inr (mem_of_getElem?_eq hx1)
      have hr : t.remove x =
          ({ t with bucket1 := t.bucket1.set (t.h2 x) none, size := t.size - 1 },
            true) := by
        simp only [CuckooHashTable.remove]
        rw [if_neg h0, if_pos h1s]
      rw [hr]
      have hget : ∀ j, (t.bucket1.set (t.h2 x) none)[j]? =
          if t.h2 x = j then some none else t.bucket1[j]? := by
        intro j
        simp [List.getElem?_set, hb1]
      have hsz : 0 < t.liveElems.length :=
        List.length_pos.mpr (List.ne_nil_of_mem ((mem_liveElems_iff t x).mpr hmemx))
      have hlen : ((t.bucket1.set (t.h2 x) none).filterMap id).length + 1 =
          (t.bucket1.filterMap id).length := filterMap_id_length_set_none hx1
      have hszeq := hInv.size_eq
      have hmem : ∀ y,
          ({ t with bucket1 := t.bucket1.set (t.h2 x) none, size := t.size - 1 } :
            CuckooHashTable T).memTable y ↔ (t.memTable y ∧ y ≠ x) := by
        intro y
        constructor
        · rintro (h | h)
          · refine ⟨Or.inl h, ?_⟩
            intro hyx
            subst hyx
            obtain ⟨j, hj⟩ := List.mem_iff_getElem?.mp h
            rw [hInv.placed0 j y hj] at hj
            exact hnot0 hj
          · obtain ⟨j, hj⟩ := List.mem_iff_getElem?.mp h
            rw [hget j] at hj
            by_cases hxj : t.h2 x = j
            · rw [if_pos hxj] at hj
              exact Option.noConfusion (Option.some_inj.mp hj)
            · rw [if_neg hxj] at hj
              refine ⟨Or.inr (mem_of_getElem?_eq hj), ?_⟩
              intro hyx
              subst hyx
              exact hxj (hInv.placed1 j y hj).symm
        · rintro ⟨hmemy, hyx⟩
          rcases hmemy with h | h
          · exact Or.inl h
          · obtain ⟨j, hj⟩ := List.mem_iff_getElem?.mp h
            have hxj : t.h2 x ≠ j := by
              intro he
              rw [← he, hx1] at hj
              exact hyx (Option.some_inj.mp (Option.some_inj.mp hj)).symm
            right
            refine mem_of_getElem?_eq (i := j) ?_
            rw [hget j, if_neg hxj]
            exact hj
      refine ⟨?_, ?_, hmem, rfl, rfl, by simp, rfl, rfl, by simp, ?_⟩
      · constructor
        · simpa using hInv.len0
        · simpa using hInv.len1
        · simpa using hInv.cap_pow
        · intro i y hy
          simp only at hy
          have := hInv.placed0 i y hy
          subst this
          simp [CuckooHashTable.h1]
        · intro i y hy
          simp only at hy
          rw [hget i] at hy
          have hxi : t.h2 x ≠ i := by
            intro he
            rw [if_pos he] at hy
            exact Option.noConfusion (Option.some_inj.mp hy)
          rw [if_neg hxi] at hy
          have := hInv.placed1 i y hy
          subst this
          simp [CuckooHashTable.h2]
        · intro y hy
          obtain ⟨hy0, hy1⟩ := hy
          have hh1R : ({ t with
              bucket1 := t.bucket1.set (t.h2 x) none,
              size := t.size - 1 } : CuckooHashTable T).h1 y = t.h1 y := by
            simp [CuckooHashTable.h1]
          have hh2R : ({ t with
              bucket1 := t.bucket1.set (t.h2 x) none,
              size := t.size - 1 } : CuckooHashTable T).h2 y = t.h2 y := by
            simp [CuckooHashTable.h2]
          rw [hh1R] at hy0
          rw [hh2R] at hy1
          simp only at hy0 hy1
          rw [hget (t.h2 y)] at hy1
          by_cases hxy : t.h2 x = t.h2 y
          · rw [if_pos hxy] at hy1
            exact Option.noConfusion (Option.some_inj.mp hy1)
          · rw [if_neg hxy] at hy1
            exact hInv.nodup y ⟨hy0, hy1⟩
        · show t.size - 1 = _
          unfold CuckooHashTable.liveElems
          simp only [List.length_append]
          unfold CuckooHashTable.liveElems at hszeq hsz
          simp only [List.length_append] at hszeq hsz
          omega
      · constructor
        · intro _
          exact hmemx
        · intro _
          rfl
      · intro _
        show t.size - 1 + 1 = t.size
        unfold CuckooHashTable.liveElems at hszeq hsz
        simp only [List.length_append] at hszeq hsz
        omega
    · -- not found at either candidate slot
      have hr : t.remove x = (t, false) := by
        simp only [CuckooHashTable.remove]
        rw [if_neg h0, if_neg h1s]
      rw [hr]
      have hnmem : ¬ t.memTable x := by
        intro hc
        rcases (memTable_iff_slots hInv x).mp hc with h | h
        · exact h0 ((getD_none_eq_some_iff _ _ _).mpr h)
        · exact h1s ((getD_none_eq_some_iff _ _ _).mpr h)
      refine ⟨hInv, ?_, ?_, rfl, rfl, rfl, rfl, rfl, fun _ => rfl, ?_⟩
      · constructor
        · intro hc
          exact Bool.noConfusion hc
        · intro hc
          exact absurd hc hnmem
      · intro y
        constructor
        · intro h
          refine ⟨h, ?_⟩
          intro hyx
          subst hyx
          exact hnmem h
        · rintro ⟨h, _⟩
          exact h
      · intro hc
        exact Bool.noConfusion hc

lemma insert_main_spec : ∀ fuel : Nat,
    (∀ (t : CuckooHashTable T) (x : T) (t2 : CuckooHashTable T) (b : Bool),
      CuckooInv t → t.insert fuel x = some (t2, b) →
      CuckooInv t2 ∧ (∀ y, t2.memTable y ↔ (t.memTable y ∨ y = x)) ∧
      (b = true ↔ ¬ t.memTable x) ∧ t.capacity ≤ t2.capacity ∧
      t2.hash1 = t.hash1 ∧ t2.hash2 = t.hash2) ∧
    (∀ (t t2 : CuckooHashTable T), CuckooInv t →
      CuckooHashTable.resize_and_rehash fuel t = some t2 →
      CuckooInv t2 ∧ (∀ y, t2.memTable y ↔ t.memTable y) ∧
      2 * t.capacity ≤ t2.capacity ∧ t2.hash1 = t.hash1 ∧ t2.hash2 = t.hash2) ∧
    (∀ (t : CuckooHashTable T) (xs : List T) (t2 : CuckooHashTable T),
      CuckooInv t → CuckooHashTable.insertList fuel t xs = some t2 →
      CuckooInv t2 ∧ (∀ y, t2.memTable y ↔ (t.memTable y ∨ y ∈ xs)) ∧
      t.capacity ≤ t2.capacity ∧ t2.hash1 = t.hash1 ∧ t2.hash2 = t.hash2) := by
  intro fuel
  induction fuel with
  | zero =>
    refine ⟨?_, ?_, ?_⟩
    · intro t x t2 b _ h
      rw [CuckooHashTable.insert] at h
      exact Option.noConfusion h
    · intro t t2 _ h
      rw [CuckooHashTable.resize_and_rehash] at h
      exact Option.noConfusion h
    · intro t xs t2 _ h
      rw [CuckooHashTable.insertList] at h
      exact Option.noConfusion h
  | succ fuel ih =>
    obtain ⟨ihI, ihR, ihL⟩ := ih
    have partI : ∀ (t : CuckooHashTable T) (x : T) (t2 : CuckooHashTable T)
        (b : Bool), CuckooInv t → t.insert (fuel + 1) x = some (t2, b) →
        CuckooInv t2 ∧ (∀ y, t2.memTable y ↔ (t.memTable y ∨ y = x)) ∧
        (b = true ↔ ¬ t.memTable x) ∧ t.capacity ≤ t2.capacity ∧
        t2.hash1 = t.hash1 ∧ t2.hash2 = t.hash2 := by
      intro t x t2 b hInv h
      rw [CuckooHashTable.insert] at h
      by_cases hc : t.contains x = true
      · rw [if_pos hc] at h
        injection h with h
        obtain ⟨rfl, rfl⟩ := Prod.mk.inj h
        have hmemx : t.memTable x := (contains_iff_memTable hInv x).mp hc
        refine ⟨hInv, ?_, ?_, Nat.le_refl _, rfl, rfl⟩
        · intro y
          constructor
          · exact Or.inl
          · rintro (hy | rfl)
            · exact hy
            · exact hmemx
        · constructor
          · intro hcontra
            exact Bool.noConfusion hcontra
          · intro hn
            exact absurd hmemx hn
      · have hnm : ¬ t.memTable x := by
          intro hmm
          exact hc ((contains_iff_memTable hInv x).mpr hmm)
        rw [if_neg hc] at h
        dsimp only at h
        by_cases h0e : (t.bucket0.getD (t.h1 x) none).isNone = true
        · rw [if_pos h0e] at h
          injection h with h
          obtain ⟨rfl, rfl⟩ := Prod.mk.inj h
          have hempty' : t.bucket0[t.h1 x]? = some none :=
            (getD_none_isNone_iff (h1_lt hInv.len0_pos x)).mp h0e
          obtain ⟨hI, hm, _, hcap, hf1, hf2⟩ :=
            insert_into_slot0_spec hInv hnm hempty'
          exact ⟨hI, hm, ⟨fun _ => hnm, fun _ => rfl⟩, Nat.le_of_eq hcap.symm,
            hf1, hf2⟩
        · rw [if_neg h0e] at h
          by_cases h1e : (t.bucket1.getD (t.h2 x) none).isNone = true
          · rw [if_pos h1e] at h
            injection h with h
            obtain ⟨rfl, rfl⟩ := Prod.mk.inj h
            have hempty' : t.bucket1[t.h2 x]? = some none :=
              (getD_none_isNone_iff (h2_lt hInv.len1_pos x)).mp h1e
            obtain ⟨hI, hm, _, hcap, hf1, hf2⟩ :=
              insert_into_slot1_spec hInv hnm hempty'
            exact ⟨hI, hm, ⟨fun _ => hnm, fun _ => rfl⟩, Nat.le_of_eq hcap.symm,
              hf1, hf2⟩
          · rw [if_neg h1e] at h
            obtain ⟨lp, le⟩ := evictionLoop_spec MAX_LOOP t x hInv hnm
            cases heq : evictionLoop t x MAX_LOOP with
            | placed tp =>
              rw [heq] at h
              injection h with h
              obtain ⟨rfl, rfl⟩ := Prod.mk.inj h
              obtain ⟨hI, hm, hcap, hf1, hf2, _⟩ := lp tp heq
              exact ⟨hI, hm, ⟨fun _ => hnm, fun _ => rfl⟩, Nat.le_of_eq hcap.symm,
                hf1, hf2⟩
            | panicked =>
              rw [heq] at h
              exact Option.noConfusion h
            | exhausted te ce =>
              rw [heq] at h
              dsimp only at h
              obtain ⟨hIe, hnme, hiffe, hcape, hf1e, hf2e, _⟩ := le te ce heq
              cases hres : CuckooHashTable.resize_and_rehash fuel te with
              | none =>
                rw [hres] at h
                exact Option.noConfusion h
              | some t3 =>
                rw [hres] at h
                dsimp only at h
                obtain ⟨hI3, hm3, hcap3, hf13, hf23⟩ := ihR te t3 hIe hres
                have hnm3 : ¬ t3.memTable ce := by
                  intro hmm
                  exact hnme ((hm3 ce).mp hmm)
                cases hins : CuckooHashTable.insert fuel t3 ce with
                | none =>
                  rw [hins] at h
                  exact Option.noConfusion h
                | some p =>
                  obtain ⟨t4, b4⟩ := p
                  rw [hins] at h
                  injection h with h
                  obtain ⟨rfl, rfl⟩ := Prod.mk.inj h
                  obtain ⟨hI4, hm4, _, hcap4, hf14, hf24⟩ := ihI t3 ce t4 b4 hI3 hins
                  refine ⟨hI4, ?_, ⟨fun _ => hnm, fun _ => rfl⟩, ?_, ?_, ?_⟩
                  · intro y
                    calc t4.memTable y
                        ↔ (t3.memTable y ∨ y = ce) := hm4 y
                      _ ↔ (te.memTable y ∨ y = ce) := by rw [hm3 y]
                      _ ↔ (t.memTable y ∨ y = x) := hiffe y
                  · calc t.capacity = te.capacity := hcape.symm
                      _ ≤ 2 * te.capacity := by omega
                      _ ≤ t3.capacity := hcap3
                      _ ≤ t4.capacity := hcap4
                  · rw [hf14, hf13, hf1e]
                  · rw [hf24, hf23, hf2e]
    refine ⟨partI, ?_, ?_⟩
    · intro t t2 hInv h
      rw [CuckooHashTable.resize_and_rehash] at h
      obtain ⟨k, hk⟩ := hInv.cap_pow
      have hshell : CuckooInv
          (⟨List.replicate (t.capacity * 2) none,
            List.replicate (t.capacity * 2) none, 0, t.capacity * 2,
            t.hash1, t.hash2⟩ : CuckooHashTable T) := by
        refine inv_empty (t.capacity * 2) ⟨k + 1, ?_⟩ t.hash1 t.hash2
        rw [hk]
        ring
      obtain ⟨hI2, hm2, hcap2, hf12, hf22⟩ :=
        ihL _ (t.bucket0.filterMap id ++ t.bucket1.filterMap id) t2 hshell h
      refine ⟨hI2, ?_, ?_, hf12, hf22⟩
      · intro y
        rw [hm2 y]
        constructor
        · rintro (hy | hy)
          · rcases hy with hy | hy <;>
              exact absurd hy (not_mem_replicate_none _ y)
          · exact (mem_liveElems_iff t y).mp hy
        · intro hy
          exact Or.inr ((mem_liveElems_iff t y).mpr hy)
      · calc 2 * t.capacity = t.capacity * 2 := by ring
          _ ≤ t2.capacity := hcap2
    · intro t xs t2 hInv h
      cases xs with
      | nil =>
        rw [CuckooHashTable.insertList] at h
        injection h with h
        subst h
        refine ⟨hInv, ?_, Nat.le_refl _, rfl, rfl⟩
        intro y
        simp
      | cons x rest =>
        rw [CuckooHashTable.insertList] at h
        cases hins : CuckooHashTable.insert fuel t x with
        | none =>
          rw [hins] at h
          exact Option.noConfusion h
        | some p =>
          obtain ⟨tm, bm⟩ := p
          rw [hins] at h
          obtain ⟨hIm, hmm, _, hcapm, hf1m, hf2m⟩ := ihI t x tm bm hInv hins
          obtain ⟨hI2, hm2, hcap2, hf12, hf22⟩ := ihL tm rest t2 hIm h
          refine ⟨hI2, ?_, hcapm.trans hcap2, hf12.trans hf1m, hf22.trans hf2m⟩
          intro y
          rw [hm2 y, hmm y]
          simp only [List.mem_cons]
          tauto

lemma bool_eq_decide {b : Bool} {p : Prop} [Decidable p]
    (h : b = true ↔ p) : b = decide p := by
  by_cases hp : p
  · simp [hp, h.mpr hp]
  · have : ¬ b = true := fun hb => hp (h.mp hb)
    cases b
    · simp [hp]
    · exact absurd rfl this

lemma reachable_inv {f1 f2 : T → Nat} {t : CuckooHashTable T}
    (h : Reachable f1 f2 t) : CuckooInv t := by
  induction h with
  | base => exact inv_new f1 f2
  | ins hr hins ih => exact ((insert_main_spec _).1 _ _ _ _ ih hins).1
  | rem hr ih => exact (remove_spec ih _).1
  | rsz hr hres ih => exact ((insert_main_spec _).2.1 _ _ ih hres).1

lemma runTable_refines (ops : List (Op T)) : ∀ (fuel : Nat)
    (t : CuckooHashTable T) (s : Finset T), CuckooInv t →
    (∀ y, t.memTable y ↔ y ∈ s) →
    ∀ tf bs, runTable fuel t ops = some (tf, bs) →
      CuckooInv tf ∧ bs = (runSet s ops).2 ∧
      (∀ y, tf.memTable y ↔ y ∈ (runSet s ops).1) := by
  induction ops with
  | nil =>
    intro fuel t s hInv hrel tf bs h
    rw [runTable] at h
    injection h with h
    obtain ⟨rfl, rfl⟩ := Prod.mk.inj h
    exact ⟨hInv, rfl, hrel⟩
  | cons op rest ih =>
    intro fuel t s hInv hrel tf bs h
    cases op with
    | insertOp x =>
      rw [runTable] at h
      cases hins : t.insert fuel x with
      | none =>
        rw [hins] at h
        exact Option.noConfusion h
      | some p =>
        obtain ⟨t2, b⟩ := p
        rw [hins] at h
        dsimp only at h
        cases hrun : runTable fuel t2 rest with
        | none =>
          rw [hrun] at h
          exact Option.noConfusion h
        | some q =>
          obtain ⟨tf2, bs2⟩ := q
          rw [hrun] at h
          injection h with h
          obtain ⟨rfl, rfl⟩ := Prod.mk.inj h
          obtain ⟨hI2, hm2, hb2, _, _, _⟩ :=
            (insert_main_spec fuel).1 t x t2 b hInv hins
          have hrel2 : ∀ y, t2.memTable y ↔ y ∈ insert x s := by
            intro y
            rw [hm2 y, Finset.mem_insert, hrel y]
            tauto
          obtain ⟨hIf, hbs, hmf⟩ := ih fuel t2 (insert x s) hI2 hrel2 tf2 bs2 hrun
          have hbval : b = decide (x ∉ s) := by
            refine bool_eq_decide ?_
            rw [hb2, hrel x]
          rw [runSet]
          exact ⟨hIf, by rw [hbs, hbval], hmf⟩
    | removeOp x =>
      rw [runTable] at h
      cases hrun : runTable fuel (t.remove x).1 rest with
      | none =>
        rw [hrun] at h
        exact Option.noConfusion h
      | some q =>
        obtain ⟨tf2, bs2⟩ := q
        rw [hrun] at h
        injection h with h
        obtain ⟨rfl, rfl⟩ := Prod.mk.inj h
        obtain ⟨hI2, hret, hm2, _, _, _, _, _, _, _⟩ := remove_spec hInv x
        have hrel2 : ∀ y, (t.remove x).1.memTable y ↔ y ∈ s.erase x := by
          intro y
          rw [hm2 y, Finset.mem_erase, hrel y]
          tauto
        obtain ⟨hIf, hbs, hmf⟩ :=
          ih fuel (t.remove x).1 (s.erase x) hI2 hrel2 tf2 bs2 hrun
        have hbval : (t.remove x).2 = decide (x ∈ s) := by
          refine bool_eq_decide ?_
          rw [hret, hrel x]
        rw [runSet]
        exact ⟨hIf, by rw [hbs, hbval], hmf⟩
    | containsOp x =>
      rw [runTable] at h
      cases hrun : runTable fuel t rest with
      | none =>
        rw [hrun] at h
        exact Option.noConfusion h
      | some q =>
        obtain ⟨tf2, bs2⟩ := q
        rw [hrun] at h
        injection h with h
        obtain ⟨rfl, rfl⟩ := Prod.mk.inj h
        obtain ⟨hIf, hbs, hmf⟩ := ih fuel t s hInv hrel tf2 bs2 hrun
        have hbval : t.contains x = decide (x ∈ s) := by
          refine bool_eq_decide ?_
          rw [contains_iff_memTable hInv, hrel x]
        rw [runSet]
        exact ⟨hIf, by rw [hbs, hbval], hmf⟩

lemma runTable_capacity_mono (ops : List (Op T)) : ∀ (fuel : Nat)
    (t : CuckooHashTable T), CuckooInv t →
    ∀ tf bs, runTable fuel t ops = some (tf, bs) → t.capacity ≤ tf.capacity := by
  induction ops with
  | nil =>
    intro fuel t hInv tf bs h
    rw [runTable] at h
    injection h with h
    obtain ⟨rfl, rfl⟩ := Prod.mk.inj h
    exact Nat.le_refl _
  | cons op rest ih =>
    intro fuel t hInv tf bs h
    cases op with
    | insertOp x =>
      rw [runTable] at h
      cases hins : t.insert fuel x with
      | none =>
        rw [hins] at h
        exact Option.noConfusion h
      | some p =>
        obtain ⟨t2, b⟩ := p
        rw [hins] at h
        dsimp only at h
        cases hrun : runTable fuel t2 rest with
        | none =>
          rw [hrun] at h
          exact Option.noConfusion h
        | some q =>
          obtain ⟨tf2, bs2⟩ := q
          rw [hrun] at h
          injection h with h
          obtain ⟨rfl, rfl⟩ := Prod.mk.inj h
          obtain ⟨hI2, _, _, hcap, _, _⟩ :=
            (insert_main_spec fuel).1 t x t2 b hInv hins
          exact hcap.trans (ih fuel t2 hI2 tf2 bs2 hrun)
    | removeOp x =>
      rw [runTable] at h
      cases hrun : runTable fuel (t.remove x).1 rest with
      | none =>
        rw [hrun] at h
        exact Option.noConfusion h
      | some q =>
        obtain ⟨tf2, bs2⟩ := q
        rw [hrun] at h
        injection h with h
        obtain ⟨rfl, rfl⟩ := Prod.mk.inj h
        obtain ⟨hI2, _, _, hcap, _, _, _, _, _, _⟩ := remove_spec hInv x
        rw [← hcap]
        exact ih fuel (t.remove x).1 hI2 tf2 bs2 hrun
    | containsOp x =>
      rw [runTable] at h
      cases hrun : runTable fuel t rest with
      | none =>
        rw [hrun] at h
        exact Option.noConfusion h
      | some q =>
        obtain ⟨tf2, bs2⟩ := q
        rw [hrun] at h
        injection h with h
        obtain ⟨rfl, rfl⟩ := Prod.mk.inj h
        exact ih fuel t hInv tf2 bs2 hrun

lemma memTable_iff_mem_liveElems_toFinset {t : CuckooHashTable T} (y : T) :
    y ∈ t.liveElems.toFinset ↔ t.memTable y := by
  rw [List.mem_toFinset, mem_liveElems_iff]

lemma evictionSteps_le (n : Nat) : ∀ (t : CuckooHashTable T) (cur : T),
    evictionSteps t cur n ≤ n := by
  induction n with
  | zero =>
    intro t cur
    rw [evictionSteps]
  | succ n ih =>
    intro t cur
    rw [evictionSteps]
    dsimp only
    split
    · omega
    · split
      · omega
      · split
        · omega
        · rename_i hc1 old evicted heq hc2
          have hrec := ih ({ t with
            bucket0 := t.bucket0.set (t.h1 cur) (some cur) } :
              CuckooHashTable T) evicted
          have hn : 1 + n ≤ n + 1 := by omega
          exact le_trans (Nat.add_le_add_left hrec 1) hn

lemma getD_none_isNone_false {l : List (Option T)} {i : Nat}
    (h : (l.getD i none).isNone = false) : ∃ x, l[i]? = some (some x) := by
  rw [List.getD_eq_getElem?_getD] at h
  cases hl : l[i]? with
  | none =>
    rw [hl] at h
    simp at h
  | some v =>
    cases v with
    | none =>
      rw [hl] at h
      simp at h
    | some x =>
      exact ⟨x, rfl⟩

/-- C9: whenever the eviction walk reaches its swap step, the group-0 slot it
swaps into was just checked to be occupied, so the
`.expect("must not be None")` branch is unreachable: the walk never returns
the panic outcome, for any table state, element and iteration budget. -/
theorem eviction_walk_expect_never_fires {T2 : Type} (t : CuckooHashTable T2)
    (cur : T2) (n : Nat) : evictionLoop t cur n ≠ EvictResult.panicked := by
  induction n generalizing t cur with
  | zero =>
    rw [evictionLoop]
    intro h
    exact EvictResult.noConfusion h
  | succ n ih =>
    rw [evictionLoop]
    dsimp only
    split
    · intro h
      exact EvictResult.noConfusion h
    · rename_i hcond
      split
      · rename_i heq
        exact absurd (by rw [heq]; rfl) hcond
      · rename_i evicted heq
        split
        · intro h
          exact EvictResult.noConfusion h
        · exact ih _ _

/-- C10: during a single eviction walk, occupied group-1 slots are never
modified: whether the walk ends by placing the element or by exhausting its
iteration budget, every slot of group 1 that held an element still holds that
element (group-1 slots are written only when empty; only group-0 occupants
are displaced). -/
theorem eviction_walk_never_modifies_occupied_group1 (n : Nat)
    (t : CuckooHashTable T) (cur : T) (i : Nat) (y : T)
    (h : t.bucket1[i]? = some (some y)) :
    (match evictionLoop t cur n with
     | EvictResult.placed t2 => t2.bucket1[i]? = some (some y)
     | EvictResult.exhausted t2 _ => t2.bucket1[i]? = some (some y)
     | EvictResult.panicked => True) := by
  induction n generalizing t cur h with
  | zero =>
    rw [evictionLoop]
    exact h
  | succ n ih =>
    by_cases hempty : (t.bucket0.getD (t.h1 cur) none).isNone = true
    · rw [evictionLoop_succ_empty hempty]
      exact h
    · have hne : (t.bucket0.getD (t.h1 cur) none).isNone = false := by
        cases hval : (t.bucket0.getD (t.h1 cur) none).isNone
        · rfl
        · exact absurd hval hempty
      obtain ⟨evicted, hocc⟩ := getD_none_isNone_false hne
      have hold : t.bucket0.getD (t.h1 cur) none = some evicted :=
        (getD_none_eq_some_iff _ _ _).mpr hocc
      set t2 : CuckooHashTable T :=
        { t with bucket0 := t.bucket0.set (t.h1 cur) (some cur) } with ht2
      by_cases hstep2 : (t2.bucket1.getD (t2.h2 evicted) none).isNone = true
      · rw [evictionLoop_succ_swap_place hold hstep2]
        have hbi : t2.h2 evicted ≠ i := by
          intro he
          rw [he] at hstep2
          have hb1 : t2.bucket1 = t.bucket1 := by rw [ht2]
          rw [hb1, List.getD_eq_getElem?_getD, h] at hstep2
          simp at hstep2
        show (t2.bucket1.set (t2.h2 evicted) (some evicted))[i]? = some (some y)
        rw [List.getElem?_set_ne hbi]
        exact h
      · have hne2 : (t2.bucket1.getD (t2.h2 evicted) none).isNone = false := by
          cases hval : (t2.bucket1.getD (t2.h2 evicted) none).isNone
          · rfl
          · exact absurd hval hstep2
        rw [evictionLoop_succ_swap_loop hold hne2]
        refine ih t2 evicted ?_
        show t2.bucket1[i]? = some (some y)
        exact h

/-- C7: the eviction walk inside `insert` runs for at most the fixed constant
`MAX_LOOP = 100` iterations, and when the table rejects the fast paths
(element absent, both candidate slots occupied) `insert` is exactly: run the
walk with budget `MAX_LOOP`; if it places the element return true; if it
exhausts the budget perform one `resize_and_rehash` and then retry exactly
the final displaced element against the resized table, returning true. -/
theorem insert_eviction_cap_then_single_resize (fuel : Nat)
    (t : CuckooHashTable T) (x : T)
    (hc : t.contains x = false)
    (h0 : (t.bucket0.getD (t.h1 x) none).isNone = false)
    (h1occ : (t.bucket1.getD (t.h2 x) none).isNone = false) :
    MAX_LOOP = 100 ∧ evictionSteps t x MAX_LOOP ≤ 100 ∧
    t.insert (fuel + 1) x = insertSlowPath fuel t x := by
  refine ⟨rfl, evictionSteps_le MAX_LOOP t x, ?_⟩
  rw [insertSlowPath]
  rw [CuckooHashTable.insert]
  rw [if_neg (show ¬ t.contains x = true by
    intro hcc
    rw [hc] at hcc
    exact Bool.noConfusion hcc)]
  dsimp only
  rw [if_neg (show ¬ (t.bucket0.getD (t.h1 x) none).isNone = true by
    intro hcc
    rw [h0] at hcc
    exact Bool.noConfusion hcc)]
  rw [if_neg (show ¬ (t.bucket1.getD (t.h2 x) none).isNone = true by
    intro hcc
    rw [h1occ] at hcc
    exact Bool.noConfusion hcc)]

/-- C2: `insert` returns false exactly when the element is already present at
entry (`contains` holds), and a false return leaves the whole table state
unchanged. -/
theorem insert_false_iff_already_present (fuel : Nat)
    (t : CuckooHashTable T) (x : T) (t2 : CuckooHashTable T) (b : Bool)
    (h : t.insert fuel x = some (t2, b)) :
    (b = false ↔ t.contains x = true) ∧ (b = false → t2 = t) := by
  cases fuel with
  | zero =>
    rw [CuckooHashTable.insert] at h
    exact Option.noConfusion h
  | succ fuel =>
    rw [CuckooHashTable.insert] at h
    by_cases hc : t.contains x = true
    · rw [if_pos hc] at h
      injection h with h
      obtain ⟨rfl, rfl⟩ := Prod.mk.inj h
      exact ⟨⟨fun _ => hc, fun _ => rfl⟩, fun _ => rfl⟩
    · rw [if_neg hc] at h
      dsimp only at h
      have hb : b = true := by
        by_cases h0e : (t.bucket0.getD (t.h1 x) none).isNone = true
        · rw [if_pos h0e] at h
          injection h with h
          exact ((Prod.mk.inj h).2).symm
        · rw [if_neg h0e] at h
          by_cases h1e : (t.bucket1.getD (t.h2 x) none).isNone = true
          · rw [if_pos h1e] at h
            injection h with h
            exact ((Prod.mk.inj h).2).symm
          · rw [if_neg h1e] at h
            cases heq : evictionLoop t x MAX_LOOP with
            | placed tp =>
              rw [heq] at h
              injection h with h
              exact ((Prod.mk.inj h).2).symm
            | panicked =>
              rw [heq] at h
              exact Option.noConfusion h
            | exhausted te ce =>
              rw [heq] at h
              dsimp only at h
              cases hres : CuckooHashTable.resize_and_rehash fuel te with
              | none =>
                rw [hres] at h
                exact Option.noConfusion h
              | some t3 =>
                rw [hres] at h
                dsimp only at h
                cases hins : CuckooHashTable.insert fuel t3 ce with
                | none =>
                  rw [hins] at h
                  exact Option.noConfusion h
                | some p =>
                  obtain ⟨t4, b4⟩ := p
                  rw [hins] at h
                  injection h with h
                  exact ((Prod.mk.inj h).2).symm
      subst hb
      refine ⟨⟨fun hf => Bool.noConfusion hf, fun hcc => absurd hcc hc⟩,
        fun hf => Bool.noConfusion hf⟩

/-- C1: for every finite sequence of insert/remove/contains operations run
against a freshly constructed table (any pair of hash functions) that
terminates within its fuel, the booleans returned operation-by-operation are
exactly those of a reference finite set run on the same sequence
(insert = set-add returning "newly added", remove = set-discard returning
"was present", contains = set-membership), and the final membership of the
table equals the final reference set. Since the theorem quantifies over all
sequences, the membership claim also holds after every prefix. -/
theorem cuckoo_refines_finset_oracle (f1 f2 : T → Nat) (ops : List (Op T))
    (fuel : Nat) (tf : CuckooHashTable T) (bs : List Bool)
    (h : runTable fuel (CuckooHashTable.new f1 f2) ops = some (tf, bs)) :
    bs = (runSet (∅ : Finset T) ops).2 ∧
    (∀ y, tf.contains y = decide (y ∈ (runSet (∅ : Finset T) ops).1)) ∧
    tf.liveElems.toFinset = (runSet (∅ : Finset T) ops).1 := by
  have hrel : ∀ y, (CuckooHashTable.new f1 f2).memTable y ↔ y ∈ (∅ : Finset T) := by
    intro y
    constructor
    · intro hm
      exact absurd hm (memTable_new f1 f2 y)
    · intro hm
      exact absurd hm (Finset.not_mem_empty y)
  obtain ⟨hIf, hbs, hmf⟩ :=
    runTable_refines ops fuel (CuckooHashTable.new f1 f2) ∅
      (inv_new f1 f2) hrel tf bs h
  refine ⟨hbs, ?_, ?_⟩
  · intro y
    refine bool_eq_decide ?_
    rw [contains_iff_memTable hIf, hmf y]
  · apply Finset.ext
    intro y
    rw [memTable_iff_mem_liveElems_toFinset, hmf y]

/-- C3: `remove(x)` returns true exactly when `x` is present (`contains`);
on a true return the slot that held `x` (group-0 candidate checked first,
then group-1 candidate) is cleared, `size` drops by one, and `contains x`
becomes false; on a false return the table is unchanged; the capacity and
both group lengths are never changed, so removal never resizes. -/
theorem remove_clears_present_element (t : CuckooHashTable T) (x : T)
    (hInv : CuckooInv t) :
    ((t.remove x).2 = true ↔ t.contains x = true) ∧
    ((t.remove x).2 = true → (t.remove x).1.contains x = false ∧
        (t.remove x).1.size + 1 = t.size) ∧
    ((t.remove x).2 = false → (t.remove x).1 = t) ∧
    (t.remove x).1.capacity = t.capacity ∧
    (t.remove x).1.bucket0.length = t.bucket0.length ∧
    (t.remove x).1.bucket1.length = t.bucket1.length ∧
    (t.bucket0.getD (t.h1 x) none = some x →
      (t.remove x).1.bucket0 = t.bucket0.set (t.h1 x) none ∧
      (t.remove x).1.bucket1 = t.bucket1) ∧
    (¬ t.bucket0.getD (t.h1 x) none = some x →
      t.bucket1.getD (t.h2 x) none = some x →
      (t.remove x).1.bucket0 = t.bucket0 ∧
      (t.remove x).1.bucket1 = t.bucket1.set (t.h2 x) none) := by
  obtain ⟨hI2, hret, hmem, hcap, hl0, hl1, _, _, hfalse, hsz⟩ := remove_spec hInv x
  refine ⟨?_, ?_, hfalse, hcap, hl0, hl1, ?_, ?_⟩
  · rw [hret, contains_iff_memTable hInv]
  · intro htrue
    refine ⟨?_, hsz htrue⟩
    rw [contains_false_iff hI2]
    intro hmm
    exact ((hmem x).mp hmm).2 rfl
  · intro h0
    simp only [CuckooHashTable.remove]
    rw [if_pos h0]
    exact ⟨rfl, rfl⟩
  · intro h0 h1f
    simp only [CuckooHashTable.remove]
    rw [if_neg h0, if_pos h1f]
    exact ⟨rfl, rfl⟩

/-- C4: in every table state reachable from a fresh table (by inserts,
removes, and internal resizes), every stored element sits in exactly one of
its two candidate slots — the group-0 slot at `h1 x` or the group-1 slot at
`h2 x`, never both — and it occupies no other slot of either group, so no
element appears twice. -/
theorem reachable_placement_invariant (f1 f2 : T → Nat)
    (t : CuckooHashTable T) (h : Reachable f1 f2 t) :
    ∀ x, t.memTable x →
      ((t.bucket0[t.h1 x]? = some (some x) ∧
          ¬ t.bucket1[t.h2 x]? = some (some x)) ∨
        (t.bucket1[t.h2 x]? = some (some x) ∧
          ¬ t.bucket0[t.h1 x]? = some (some x))) ∧
      (∀ i, t.bucket0[i]? = some (some x) → i = t.h1 x) ∧
      (∀ i, t.bucket1[i]? = some (some x) → i = t.h2 x) := by
  have hInv := reachable_inv h
  intro x hmem
  refine ⟨?_, fun i => hInv.placed0 i x, fun i => hInv.placed1 i x⟩
  rcases (memTable_iff_slots hInv x).mp hmem with h0 | h1
  · left
    refine ⟨h0, ?_⟩
    intro h1
    exact hInv.nodup x ⟨h0, h1⟩
  · right
    refine ⟨h1, ?_⟩
    intro h0
    exact hInv.nodup x ⟨h0, h1⟩

/-- C5: in every reachable table state (including those produced through
`resize_and_rehash`), the `size` field equals the exact number of occupied
slots summed over both bucket groups. -/
theorem reachable_size_counts_occupied_slots (f1 f2 : T → Nat)
    (t : CuckooHashTable T) (h : Reachable f1 f2 t) :
    t.size = t.bucket0.countP (fun s => s.isSome) +
      t.bucket1.countP (fun s => s.isSome) := by
  have hInv := reachable_inv h
  rw [hInv.size_eq]
  unfold CuckooHashTable.liveElems
  rw [List.length_append, filterMap_id_length_eq_countP,
    filterMap_id_length_eq_countP]

/-- C6: in every reachable table state both groups have the same length,
equal to the capacity, which is `16 * 2 ^ k` (16 at construction, doubled by
each resize allocation); capacity never decreases under any operation:
`insert` can only grow it, `remove` leaves it untouched, `resize_and_rehash`
at least doubles it, and any operation sequence leaves it no smaller. -/
theorem reachable_capacity_power_of_two_monotone (f1 f2 : T → Nat)
    (t : CuckooHashTable T) (h : Reachable f1 f2 t) :
    (t.bucket0.length = t.capacity ∧ t.bucket1.length = t.capacity ∧
      ∃ k, t.capacity = 16 * 2 ^ k) ∧
    (CuckooHashTable.new f1 f2 : CuckooHashTable T).capacity = 16 ∧
    (∀ fuel x t2 b, t.insert fuel x = some (t2, b) →
      t.capacity ≤ t2.capacity) ∧
    (∀ x, (t.remove x).1.capacity = t.capacity) ∧
    (∀ fuel t2, CuckooHashTable.resize_and_rehash fuel t = some t2 →
      2 * t.capacity ≤ t2.capacity) ∧
    (∀ fuel ops tf bs, runTable fuel t ops = some (tf, bs) →
      t.capacity ≤ tf.capacity) := by
  have hInv := reachable_inv h
  refine ⟨⟨hInv.len0, hInv.len1, hInv.cap_pow⟩, rfl, ?_, ?_, ?_, ?_⟩
  · intro fuel x t2 b hins
    exact ((insert_main_spec fuel).1 t x t2 b hInv hins).2.2.2.1
  · intro x
    exact (remove_spec hInv x).2.2.2.1
  · intro fuel t2 hres
    exact ((insert_main_spec fuel).2.1 t t2 hInv hres).2.2.1
  · intro fuel ops tf bs hrun
    exact runTable_capacity_mono ops fuel t hInv tf bs hrun

/-- C8: `resize_and_rehash` builds a fresh pair of empty groups of double the
prior capacity with the same hash-function instances and drains the old
groups in group-then-slot order reinserting via `insert` (the stated
equation); assuming it terminates within its fuel, the resulting table
satisfies the invariants, holds exactly the same elements (every `contains`
answer is unchanged), has the same `size`, the same hash functions, and at
least double the capacity. -/
theorem resize_and_rehash_preserves_contents (fuel : Nat)
    (t t2 : CuckooHashTable T) (hInv : CuckooInv t)
    (h : CuckooHashTable.resize_and_rehash fuel t = some t2) :
    (CuckooHashTable.resize_and_rehash (fuel + 1) t =
      CuckooHashTable.insertList fuel
        (⟨List.replicate (t.capacity * 2) none,
          List.replicate (t.capacity * 2) none, 0, t.capacity * 2,
          t.hash1, t.hash2⟩ : CuckooHashTable T)
        (t.bucket0.filterMap id ++ t.bucket1.filterMap id)) ∧
    CuckooInv t2 ∧ (∀ y, t2.contains y = t.contains y) ∧
    t2.size = t.size ∧ t2.hash1 = t.hash1 ∧ t2.hash2 = t.hash2 ∧
    2 * t.capacity ≤ t2.capacity := by
  obtain ⟨hI2, hm2, hcap, hf1, hf2⟩ := (insert_main_spec fuel).2.1 t t2 hInv h
  refine ⟨by rw [CuckooHashTable.resize_and_rehash], hI2, ?_, ?_, hf1, hf2, hcap⟩
  · intro y
    rw [Bool.eq_iff_iff, contains_iff_memTable hI2, contains_iff_memTable hInv]
    exact hm2 y
  · exact (size_eq_size_of_memTable_iff hI2 hInv hm2)


/-- Witness for C1: a concrete six-operation run with identity hashers. -/
theorem cuckoo_refines_finset_oracle_witness :
    [true, false, true, true, false, false] = (runSet (∅ : Finset Nat) wOps).2 ∧
    (∀ y, wTableRun.contains y = decide (y ∈ (runSet (∅ : Finset Nat) wOps).1)) ∧
    wTableRun.liveElems.toFinset = (runSet (∅ : Finset Nat) wOps).1 :=
  cuckoo_refines_finset_oracle idHash idHash wOps 1 wTableRun
    [true, false, true, true, false, false] rfl

/-- Witness for C2: inserting 5 into a table already holding 5 returns false
and leaves the table unchanged. -/
theorem insert_false_iff_already_present_witness :
    (false = false ↔ wTable1.contains 5 = true) ∧
    (false = false → wTable1 = wTable1) :=
  insert_false_iff_already_present 1 wTable1 5 wTable1 false rfl

/-- Witness for C3: removing the present element 5 returns true, clears it,
and decrements the size. -/
theorem remove_clears_present_element_witness :
    (wTable1.remove 5).2 = true ∧ (wTable1.remove 5).1.contains 5 = false ∧
    (wTable1.remove 5).1.size + 1 = wTable1.size := by
  have hR : Reachable idHash idHash wTable1 :=
    Reachable.ins Reachable.base
      (show CuckooHashTable.insert 1 (CuckooHashTable.new idHash idHash) 5 =
        some (wTable1, true) from rfl)
  have h := remove_clears_present_element wTable1 5 (reachable_inv hR)
  have ht : (wTable1.remove 5).2 = true := h.1.mpr rfl
  exact ⟨ht, (h.2.1 ht).1, (h.2.1 ht).2⟩

/-- Witness for C4: in the reachable table `wTable1` the stored element 5
occupies exactly its group-0 candidate slot. -/
theorem reachable_placement_invariant_witness :
    ((wTable1.bucket0[wTable1.h1 5]? = some (some 5) ∧
        ¬ wTable1.bucket1[wTable1.h2 5]? = some (some 5)) ∨
      (wTable1.bucket1[wTable1.h2 5]? = some (some 5) ∧
        ¬ wTable1.bucket0[wTable1.h1 5]? = some (some 5))) ∧
    (∀ i, wTable1.bucket0[i]? = some (some 5) → i = wTable1.h1 5) ∧
    (∀ i, wTable1.bucket1[i]? = some (some 5) → i = wTable1.h2 5) := by
  have hR : Reachable idHash idHash wTable1 :=
    Reachable.ins Reachable.base
      (show CuckooHashTable.insert 1 (CuckooHashTable.new idHash idHash) 5 =
        some (wTable1, true) from rfl)
  exact reachable_placement_invariant idHash idHash wTable1 hR 5
    (Or.inl (by decide))

/-- Witness for C5: the size of the reachable table `wTable1` equals its
occupied-slot count. -/
theorem reachable_size_counts_occupied_slots_witness :
    wTable1.size = wTable1.bucket0.countP (fun s => s.isSome) +
      wTable1.bucket1.countP (fun s => s.isSome) := by
  have hR : Reachable idHash idHash wTable1 :=
    Reachable.ins Reachable.base
      (show CuckooHashTable.insert 1 (CuckooHashTable.new idHash idHash) 5 =
        some (wTable1, true) from rfl)
  exact reachable_size_counts_occupied_slots idHash idHash wTable1 hR

/-- Witness for C6: the capacity facts instantiated at the reachable table
`wTable1`. -/
theorem reachable_capacity_power_of_two_monotone_witness :
    (wTable1.bucket0.length = wTable1.capacity ∧
      wTable1.bucket1.length = wTable1.capacity ∧
      ∃ k, wTable1.capacity = 16 * 2 ^ k) ∧
    (CuckooHashTable.new idHash idHash : CuckooHashTable Nat).capacity = 16 ∧
    (∀ fuel x t2 b, wTable1.insert fuel x = some (t2, b) →
      wTable1.capacity ≤ t2.capacity) ∧
    (∀ x, (wTable1.remove x).1.capacity = wTable1.capacity) ∧
    (∀ fuel t2, CuckooHashTable.resize_and_rehash fuel wTable1 = some t2 →
      2 * wTable1.capacity ≤ t2.capacity) ∧
    (∀ fuel ops tf bs, runTable fuel wTable1 ops = some (tf, bs) →
      wTable1.capacity ≤ tf.capacity) := by
  have hR : Reachable idHash idHash wTable1 :=
    Reachable.ins Reachable.base
      (show CuckooHashTable.insert 1 (CuckooHashTable.new idHash idHash) 5 =
        some (wTable1, true) from rfl)
  exact reachable_capacity_power_of_two_monotone idHash idHash wTable1 hR

/-- Witness for C10: a one-iteration eviction walk on `wTable3` leaves its
occupied group-1 slot 3 untouched. -/
theorem eviction_walk_never_modifies_occupied_group1_witness :
    (match evictionLoop wTable3 5 1 with
     | EvictResult.placed t2 => t2.bucket1[3]? = some (some 7)
     | EvictResult.exhausted t2 _ => t2.bucket1[3]? = some (some 7)
     | EvictResult.panicked => True) :=
  eviction_walk_never_modifies_occupied_group1 1 wTable3 5 3 7 (by decide)

/-- Witness for C8: resizing `wTable1` with fuel 3 yields the capacity-32
table `wTable1R` with the same single element. -/
theorem resize_and_rehash_preserves_contents_witness :
    (CuckooHashTable.resize_and_rehash (3 + 1) wTable1 =
      CuckooHashTable.insertList 3
        (⟨List.replicate (wTable1.capacity * 2) none,
          List.replicate (wTable1.capacity * 2) none, 0,
          wTable1.capacity * 2, wTable1.hash1, wTable1.hash2⟩ :
          CuckooHashTable Nat)
        (wTable1.bucket0.filterMap id ++ wTable1.bucket1.filterMap id)) ∧
    CuckooInv wTable1R ∧ (∀ y, wTable1R.contains y = wTable1.contains y) ∧
    wTable1R.size = wTable1.size ∧ wTable1R.hash1 = wTable1.hash1 ∧
    wTable1R.hash2 = wTable1.hash2 ∧
    2 * wTable1.capacity ≤ wTable1R.capacity := by
  have hR : Reachable idHash idHash wTable1 :=
    Reachable.ins Reachable.base
      (show CuckooHashTable.insert 1 (CuckooHashTable.new idHash idHash) 5 =
        some (wTable1, true) from rfl)
  exact resize_and_rehash_preserves_contents 3 wTable1 wTable1R
    (reachable_inv hR) rfl

/-- Witness for C7: inserting 48 into `wTable2` (both candidate slots
occupied, element absent) takes the eviction-walk path. -/
theorem insert_eviction_cap_then_single_resize_witness :
    MAX_LOOP = 100 ∧ evictionSteps wTable2 48 MAX_LOOP ≤ 100 ∧
    wTable2.insert (0 + 1) 48 = insertSlowPath 0 wTable2 48 :=
  insert_eviction_cap_then_single_resize 0 wTable2 48 rfl rfl rfl

/-- Witness for C9: the walk on `wTable3` does not hit the panic branch. -/
theorem eviction_walk_expect_never_fires_witness :
    evictionLoop wTable3 5 1 ≠ EvictResult.panicked :=
  eviction_walk_expect_never_fires wTable3 5 1
